import Mathlib

/-!
# fabio: SNI proxy with PROXY protocol header, and the access logger

A shallow embedding of

* `proxy/tcp/sni_proxy_proxy.go` (`SNIProxyProxy.ServeTCP`), as a function from
  the answers of the outside world (reads, dial, writes, copy completions) to
  the returned error and the trace of actions performed;
* `logger/logger.go` (`atoi`, `New`) and `logger/pattern.go` (`lex`, `parse`,
  `fields`, `hostport`);
* the ClientHello sniffer `readServerName`, which `ServeTCP` calls and whose
  source is not among the files: it is modelled from section 4.1 of the spec.

Go strings are modelled by Lean strings, `[]rune` by `List Char`, `[]byte`
by `List UInt8`, `int64` by `Int` with explicit wrap-around.
-/

namespace tcp

/-- Go `error` values seen by `ServeTCP`. `eof` is the sentinel `io.EOF`;
`addr why a` is the `*net.AddrError` of `net.SplitHostPort`; `other` is any
other error (I/O, dial, timeout). A nil error is `none : Option GoError`. -/
inductive GoError where
  | eof
  | addr (why : String) (a : String)
  | other (msg : String)
  deriving DecidableEq, Repr

/-- Operand of `fmt.Sprintf`: a Go `string` or a Go `int`. -/
inductive Arg where
  | str (s : String)
  | int (i : Int)
  deriving DecidableEq, Repr

/-- What `fmt` prints for one operand under one verb (package `fmt`,
`printArg`/`badVerb`): `%s` and `%v` print a string as it is, `%d` and `%v`
print an int in decimal, and a verb that does not fit the operand's type
prints `%!verb(type=value)`. Verbs other than `s`, `d`, `v` are not
modelled (`none`). -/
def fmtArg (verb : Char) (a : Arg) : Option String :=
  match a with
  | .str s =>
    if verb = 's' ∨ verb = 'v' then some s
    else if verb = 'd' then some ("%!" ++ String.singleton verb ++ "(string=" ++ s ++ ")")
    else none
  | .int i =>
    if verb = 'd' ∨ verb = 'v' then some (toString i)
    else if verb = 's' then some ("%!" ++ String.singleton verb ++ "(int=" ++ toString i ++ ")")
    else none

/-- The `%!(EXTRA type=value, ...)` suffix `fmt` appends for unused operands. -/
def fmtExtra : List Arg → String
  | [] => ""
  | a :: rest =>
    let one : Arg → String := fun x =>
      match x with
      | .str s => "string=" ++ s
      | .int i => "int=" ++ toString i
    "%!(EXTRA " ++ ", ".intercalate ((a :: rest).map one) ++ ")"

/-- Scanning loop of `fmt.Sprintf` (`doPrintf`) for formats without flags,
width or precision: literal characters are copied, `%%` prints `%`, a verb
consumes the next operand (`%!v(MISSING)` when there is none), a trailing
`%` prints `%!(NOVERB)`. -/
def sprintfLoop : List Char → List Arg → String → Option String
  | [], args, acc => some (acc ++ fmtExtra args)
  | '%' :: [], _, acc => some (acc ++ "%!(NOVERB)")
  | '%' :: '%' :: rest, args, acc => sprintfLoop rest args (acc ++ "%")
  | '%' :: v :: rest, [], acc =>
    sprintfLoop rest [] (acc ++ "%!" ++ String.singleton v ++ "(MISSING)")
  | '%' :: v :: rest, a :: args, acc =>
    match fmtArg v a with
    | some s => sprintfLoop rest args (acc ++ s)
    | none => none
  | c :: rest, args, acc => sprintfLoop rest args (acc ++ String.singleton c)

/-- Model of `fmt.Sprintf` on the verbs `%s`, `%d`, `%v`, `%%`. -/
def Sprintf (format : String) (args : List Arg) : Option String :=
  sprintfLoop format.toList args ""

/-- Index of the first occurrence of `c`, or `-1` (Go `strings.IndexByte`). -/
def indexByte (s : List Char) (c : Char) : Int :=
  match s.indexOf? c with
  | some i => i
  | none => -1

/-- Index of the last occurrence of `c`, or `-1` (Go `strings.LastIndexByte`). -/
def lastIndexByte (s : List Char) (c : Char) : Int :=
  match s.reverse.indexOf? c with
  | some i => (s.length : Int) - 1 - i
  | none => -1

/-- Go's `net.SplitHostPort`, on ASCII addresses (byte index = character
index). Returns `(host, port, err)`. -/
def SplitHostPort (hostport : String) : String × String × Option GoError :=
  let missingPort := "missing port in address"
  let tooManyColons := "too many colons in address"
  let addrErr : String → String × String × Option GoError :=
    fun why => ("", "", some (.addr why hostport))
  let hp := hostport.toList
  let i := lastIndexByte hp ':'
  if i < 0 then addrErr missingPort
  else
    let bracket : Bool := hp.head? = some '['
    let fin := indexByte hp ']'
    if bracket ∧ fin < 0 then addrErr "missing ']' in address"
    else if bracket ∧ fin + 1 = hp.length then addrErr missingPort
    else if bracket ∧ fin + 1 ≠ i then
      (if hp.get? (fin + 1).toNat = some ':' then addrErr tooManyColons
       else addrErr missingPort)
    else
      let host := if bracket then (hp.take fin.toNat).drop 1 else hp.take i.toNat
      let j : Nat := if bracket then 1 else 0
      let k : Nat := if bracket then (fin + 1).toNat else 0
      if ¬ bracket ∧ indexByte host ':' ≥ 0 then addrErr tooManyColons
      else if indexByte (hp.drop j) '[' ≥ 0 then addrErr "unexpected '[' in address"
      else if indexByte (hp.drop k) ']' ≥ 0 then addrErr "unexpected ']' in address"
      else (String.mk host, String.mk (hp.drop (i + 1).toNat), none)

/-- Bytes of a Go string: the conversion `[]byte(s)`. -/
def bytesOf (s : String) : List UInt8 := s.toUTF8.data.toList

/-- The receiver of `ServeTCP` (`type SNIProxyProxy struct`). -/
structure SNIProxyProxy where
  /-- Timeout for establishing the outbound connection (`time.Duration`). -/
  DialTimeout : Int
  /-- Target host for the given server name. -/
  Lookup : String → String

/-- The answers of everything `ServeTCP` calls outside of its own body.

* `inRead n`: what `in.Read` stores into a buffer of `n` bytes, and its error;
* `remoteAddr`: `in.RemoteAddr().String()`;
* `readServerName`: the ClientHello parser (defined elsewhere in the package);
* `dial addr timeout`: the error of `net.DialTimeout("tcp", addr, timeout)`,
  `none` when the connection was established;
* `outWrite k b`: the `k`-th `out.Write(b)`: `none` when all of `b` was written
  (`err == nil`), `some (n, err)` when it failed after `n` bytes;
* `copyUp`, `copyDown`: the value `io.Copy(out, in)` resp. `io.Copy(in, out)`
  returns, `none` when that copy never returns;
* `upFirst`: when both copies return, whether `cp(out, in)` sends on `errc`
  before `cp(in, out)` does. -/
structure World where
  inRead : Nat → List UInt8 × Option GoError
  remoteAddr : String
  readServerName : List UInt8 → String × Bool
  dial : String → Int → Option GoError
  outWrite : Nat → List UInt8 → Option (Nat × GoError)
  copyUp : Option (Option GoError)
  copyDown : Option (Option GoError)
  upFirst : Bool

/-- One observable action of `ServeTCP`, in program order. -/
inductive Action where
  | read (cap : Nat)
  | sniff (data : List UInt8)
  | lookup (host : String)
  | dial (addr : String) (ok : Bool)
  | write (sent : List UInt8) (err : Option GoError)
  | copy
  | closeOut
  | closeIn
  deriving DecidableEq, Repr

/-- How a call of `ServeTCP` ends: it returns an error value (`none` is nil),
or it waits on `errc` forever. -/
inductive Outcome where
  | returned (err : Option GoError)
  | blocked
  deriving DecidableEq, Repr

/-- The line `header := fmt.Sprintf("PROXY TCP4 %s %s %d %d\r\n", source_addr,
dest_addr, source_port, dest_port)`; all four operands are strings. -/
def header (source_addr dest_addr source_port dest_port : String) : String :=
  match Sprintf "PROXY TCP4 %s %s %d %d\r\n"
      [.str source_addr, .str dest_addr, .str source_port, .str dest_port] with
  | some s => s
  | none => ""

/-- The values in the channel `errc` (capacity 2, so no send blocks), in the
order in which the two `cp` goroutines send them. -/
def errcSends (w : World) : List (Option GoError) :=
  match w.copyUp, w.copyDown with
  | none, none => []
  | some a, none => [a]
  | none, some b => [b]
  | some a, some b => if w.upFirst then [a, b] else [b, a]

/-- The copy phase: start both goroutines, receive once from `errc`, and
return the received error unless it is nil or `io.EOF`. -/
def copyPhase (w : World) : Outcome :=
  match errcSends w with
  | [] => .blocked
  | err :: _ =>
    if err ≠ none ∧ err ≠ some GoError.eof then .returned err
    else .returned none

/-- Body of `ServeTCP` without the deferred calls: the outcome, the actions in
program order, and the stack of deferred calls (last registered first). -/
def serveBody (p : SNIProxyProxy) (w : World) : Outcome × List Action × List Action :=
  let defers0 := [Action.closeIn]
  let t1 := [Action.read 1024]
  match w.inRead 1024 with
  | (_, some err) => (.returned (some err), t1, defers0)
  | (buf, none) =>
    let data := buf.take 1024
    let t2 := t1 ++ [Action.sniff data]
    match w.readServerName data with
    | (_, false) => (.returned none, t2, defers0)
    | (host, true) =>
      if host = "" then (.returned none, t2, defers0)
      else
        let addr := p.Lookup host
        let t3 := t2 ++ [Action.lookup host]
        if addr = "" then (.returned none, t3, defers0)
        else
          match w.dial addr p.DialTimeout with
          | some err => (.returned (some err), t3 ++ [Action.dial addr false], defers0)
          | none =>
            let defers1 := Action.closeOut :: defers0
            let t4 := t3 ++ [Action.dial addr true]
            match SplitHostPort w.remoteAddr with
            | (_, _, some err) => (.returned (some err), t4, defers1)
            | (source_addr, source_port, none) =>
              match SplitHostPort addr with
              | (_, _, some err) => (.returned (some err), t4, defers1)
              | (dest_addr, dest_port, none) =>
                let hdr := bytesOf (header source_addr dest_addr source_port dest_port)
                match w.outWrite 0 hdr with
                | some (n, err) =>
                  (.returned (some err), t4 ++ [Action.write (hdr.take n) (some err)], defers1)
                | none =>
                  let t5 := t4 ++ [Action.write hdr none]
                  match w.outWrite 1 data with
                  | some (n, err) =>
                    (.returned (some err), t5 ++ [Action.write (data.take n) (some err)], defers1)
                  | none =>
                    let t6 := t5 ++ [Action.write data none, Action.copy]
                    (copyPhase w, t6, defers1)

/-- `ServeTCP`: the body, and on return the deferred calls (`out.Close()` if
it was registered, then `in.Close()`). Returns the outcome and the trace. -/
def ServeTCP (p : SNIProxyProxy) (w : World) : Outcome × List Action :=
  match serveBody p w with
  | (.returned err, t, defers) => (.returned err, t ++ defers)
  | (.blocked, t, _) => (.blocked, t)

/-- Payloads of the `out.Write` calls of a trace, in order. -/
def writesOf (t : List Action) : List (List UInt8) :=
  t.filterMap fun a =>
    match a with
    | .write sent _ => some sent
    | _ => none

/-- The bytes captured by the single initial read: `data[:n]`. -/
def capturedPrefix (w : World) : List UInt8 := (w.inRead 1024).1.take 1024

/-- The server name the sniffer extracts from the captured bytes. -/
def serverName (w : World) : String := (w.readServerName (capturedPrefix w)).1

/-- The address `p.Lookup(host)` for the extracted server name. -/
def upstreamAddr (p : SNIProxyProxy) (w : World) : String :=
  p.Lookup (serverName w)

/-- The header `ServeTCP` formats from the two split addresses. -/
def sentHeader (p : SNIProxyProxy) (w : World) : String :=
  let src := SplitHostPort w.remoteAddr
  let dst := SplitHostPort (upstreamAddr p w)
  header src.1 dst.1 src.2.1 dst.2.1

/-- A proxy that routes every name to `10.0.0.2:443`. -/
def exampleProxy : SNIProxyProxy :=
  { DialTimeout := 5000000000, Lookup := fun _ => "10.0.0.2:443" }

/-- A client at `10.0.0.1:51234` whose first read delivers three bytes and
whose ClientHello names `example.com`; every step succeeds and the
client-to-upstream copy ends first, at end of stream. -/
def exampleWorld : World :=
  { inRead := fun _ => ([22, 3, 1], none)
    remoteAddr := "10.0.0.1:51234"
    readServerName := fun _ => ("example.com", true)
    dial := fun _ _ => none
    outWrite := fun _ _ => none
    copyUp := some none
    copyDown := none
    upFirst := true }

end tcp

namespace logger

/-- Go `error` values produced by package `logger`: `invalidField val` is
`fmt.Errorf("invalid field %q", val)`, `emptyLogFormat` is
`errors.New("empty log format")`. -/
inductive GoError where
  | invalidField (val : String)
  | emptyLogFormat
  deriving DecidableEq, Repr

/-- An `http.Header` seen through its method `Get`. -/
structure Header where
  Get : String → String

/-- Part of `url.URL` the logger reads. -/
structure URL where
  RawQuery : String

/-- Part of `http.Request` the logger reads. -/
structure Request where
  Method : String
  RequestURI : String
  Proto : String
  Host : String
  RemoteAddr : String
  URL : URL
  Header : Header

/-- Part of `http.Response` the logger reads (`int64` and `int`). -/
structure Response where
  ContentLength : Int
  StatusCode : Int

/-- A `time.Time`, seen through the methods the logger calls: `UnixNano` is the
instant in nanoseconds since the Unix epoch, the other fields are what the
calendar methods `Year()`, `Month()`, ... return. -/
structure Time where
  UnixNano : Int
  Year : Int
  Month : Int
  Day : Int
  Hour : Int
  Minute : Int
  Second : Int
  Nanosecond : Int

/-- The struct `Event`. -/
structure Event where
  Start : Time
  End : Time
  Req : Request
  Resp : Response
  UpstreamAddr : String

/-- Type `field`: renders a part of the log line into the buffer. The buffer
`*bytes.Buffer` is passed and returned as its contents; `none` is a panic. -/
abbrev field := String → Event → Option String

/-- Type `pattern`: a log output format. -/
abbrev pattern := List field

/-- Two's complement wrap-around of an `int64` result. -/
def wrap64 (x : Int) : Int := (x + 2 ^ 63) % 2 ^ 64 - 2 ^ 63

/-- Conversion `byte(x)` of an `int64`: the low eight bits. -/
def byteOf (x : Int) : Nat := (x % 256).toNat

/-- The digit loop of `atoi`:
`for i >= 0 { d[p] = byte('0') + byte(i%10); i /= 10; p--; if i == 0 { break } }`.
The first argument is `p + 1`, the number of free cells `d[0..p]`; the last
is `d[p+1:]`. Writing with `p = -1` panics (`none`). -/
def atoiDigits : Nat → Int → List Char → Option (Nat × List Char)
  | 0, i, out => if i ≥ 0 then none else some (0, out)
  | s + 1, i, out =>
    if i ≥ 0 then
      let c := Char.ofNat ((48 + byteOf (i.tmod 10)) % 256)
      let i1 := i.tdiv 10
      if i1 = 0 then some (s, c :: out) else atoiDigits s i1 (c :: out)
    else some (s + 1, out)

/-- The padding loop of `atoi`: `for n-p-1 < pad { d[p] = byte('0'); p-- }`
with `n = 128`; the first argument is `p + 1`. -/
def atoiPad : Nat → Int → List Char → Option (Nat × List Char)
  | 0, pad, out => if (128 : Int) - (0 - 1) - 1 < pad then none else some (0, out)
  | s + 1, pad, out =>
    if (128 : Int) - ((s + 1 : Nat) - 1) - 1 < pad then atoiPad s pad ('0' :: out)
    else some (s + 1, out)

/-- The function `atoi(b, i, pad)`: returns the new contents of `b`, or `none`
when an index into `d [128]byte` is out of range. -/
def atoi (b : String) (i : Int) (pad : Int) : Option String :=
  let flag : Bool := decide (i < 0)
  let i := if i < 0 then wrap64 (-i) else i
  match atoiDigits 128 i [] with
  | none => none
  | some (s1, o1) =>
    match atoiPad s1 pad o1 with
    | none => none
    | some (s2, o2) =>
      if flag then
        match s2 with
        | 0 => none
        | _ + 1 => some (b ++ String.mk ('-' :: o2))
      else some (b ++ String.mk o2)

/-- The constants `itemText`, `itemField`, `itemHeader`. -/
inductive itemType where
  | itemText
  | itemField
  | itemHeader
  deriving DecidableEq, Repr

/-- The lexer states. -/
inductive state where
  | stateStart
  | stateText
  | stateDollar
  | stateField
  | stateDot
  | stateHeader
  deriving DecidableEq, Repr

open itemType state

/-- The closure `isIDChar` of `lex`. -/
def isIDChar (r : Char) : Bool :=
  ('a' ≤ r ∧ r ≤ 'z') ∨ ('A' ≤ r ∧ r ≤ 'Z') ∨ ('0' ≤ r ∧ r ≤ '9') ∨ r = '_' ∨ r = '-'

/-- The loop `for i, r := range s` of `lex` together with the final `switch`:
`s` is the whole input, `i` the index of the next rune, the last argument
the runes from `i` on. -/
def lexLoop (s : List Char) : state → Nat → List Char → itemType × Nat
  | st, _, [] =>
    match st with
    | stateDot => (itemField, s.length - 1)
    | stateField => (itemField, s.length)
    | stateHeader => (itemHeader, s.length)
    | _ => (itemText, s.length)
  | st, i, r :: rest =>
    match st with
    | stateStart =>
      if r = '$' then lexLoop s stateDollar (i + 1) rest
      else lexLoop s stateText (i + 1) rest
    | stateText =>
      if r = '$' then (itemText, i)
      else lexLoop s stateText (i + 1) rest
    | stateDollar =>
      if isIDChar r then lexLoop s stateField (i + 1) rest
      else lexLoop s stateText (i + 1) rest
    | stateField =>
      if r = '.' then
        if s.take i = "$header".toList then lexLoop s stateDot (i + 1) rest
        else (itemField, i)
      else if isIDChar r then lexLoop s stateField (i + 1) rest
      else (itemField, i)
    | stateDot =>
      if isIDChar r then lexLoop s stateHeader (i + 1) rest
      else (itemField, i)
    | stateHeader =>
      if isIDChar r then lexLoop s stateHeader (i + 1) rest
      else (itemHeader, i)

/-- The function `lex`: type and length of the first item of `s`. -/
def lex (s : List Char) : itemType × Nat :=
  lexLoop s stateStart 0 s

/-- The helper `text` of `parse`. -/
def text (s : String) : field :=
  fun b _ => some (b ++ s)

/-- The helper `header` of `parse`. -/
def header (name : String) : field :=
  fun b e => some (b ++ e.Req.Header.Get name)

/-- The `for` loop of `parse`, with a bound on the number of iterations;
`none` means the bound was reached. `fields val = none` stands for the map
lookup `fields[val]` yielding nil. Returns `(p, err)`. -/
def parseLoop (fields : String → Option field) :
    Nat → List Char → pattern → Option (pattern × Option GoError)
  | _, [], p => some (p, none)
  | 0, _ :: _, _ => none
  | fuel + 1, r :: rest, p =>
    let s := r :: rest
    let (typ, n) := lex s
    let val := String.mk (s.take n)
    let s1 := s.drop n
    match typ with
    | itemText => parseLoop fields fuel s1 (p ++ [text val])
    | itemHeader => parseLoop fields fuel s1 (p ++ [header (val.drop "$header.".length)])
    | itemField =>
      match fields val with
      | none => some ([], some (GoError.invalidField val))
      | some f => parseLoop fields fuel s1 (p ++ [f])

/-- The function `parse(format, fields)`; every iteration consumes at least one
rune, so `len(s)` iterations are enough. -/
def parse (format : String) (fields : String → Option field) :
    Option (pattern × Option GoError) :=
  parseLoop fields format.length format.toList []

/-- The items of a format string: `lex` applied again and again to what is
left, as the loop of `parse` does, keeping type and text of each item. -/
def items : Nat → List Char → List (itemType × String)
  | _, [] => []
  | 0, _ :: _ => []
  | fuel + 1, r :: rest =>
    let s := r :: rest
    let (typ, n) := lex s
    (typ, String.mk (s.take n)) :: items fuel (s.drop n)

/-- Least index at which the loop of `lex` can be in a state. -/
def minIdx : state → Nat
  | stateStart => 0
  | stateDot => 2
  | _ => 1

/-- The field `parse` appends for an item, if any: `text`, `header`, or the
entry of the fields map. -/
def fieldOf (fields : String → Option field) (it : itemType × String) : Option field :=
  match it.1 with
  | itemText => some (text it.2)
  | itemHeader => some (header (it.2.drop "$header.".length))
  | itemField => fields it.2

/-- Text of the first item that is a field and has no entry in the fields
map. -/
def firstUnknown (fields : String → Option field) : List (itemType × String) → Option String
  | [] => none
  | it :: rest =>
    if it.1 = itemField ∧ (fields it.2).isNone then some it.2
    else firstUnknown fields rest

end logger

namespace logger

/-- The method `Time.Sub` followed by `Duration.Nanoseconds()`: the elapsed
nanoseconds `t - u` as an `int64`; a difference that does not fit is
replaced by the largest resp. least duration. -/
def Time.Sub (t u : Time) : Int :=
  let d := t.UnixNano - u.UnixNano
  if d > 2 ^ 63 - 1 then 2 ^ 63 - 1
  else if d < -2 ^ 63 then -2 ^ 63
  else d

/-- The constant `time.Second` as an `int64`. -/
def Second : Int := 1000000000

/-- The constant `time.Millisecond` as an `int64`. -/
def Millisecond : Int := 1000000

/-- The constant `time.Microsecond` as an `int64`. -/
def Microsecond : Int := 1000

/-- The constant `time.Nanosecond` as an `int64`. -/
def Nanosecond : Int := 1

/-- The table `shortMonthNames`. -/
def shortMonthNames : List String :=
  ["---", "Jan", "Feb", "Mar", "Apr", "May", "Jun", "Jul", "Aug", "Sep", "Oct", "Nov", "Dec"]

/-- Indexing `shortMonthNames[m]`; `none` is the index-out-of-range panic. -/
def monthName (m : Int) : Option String :=
  if m < 0 then none else shortMonthNames.get? m.toNat

/-- The function `hostport`: for the empty string two empty strings, else the
split at the last `:`. Without a `:` the index is `-1` and the slice `s[:n]`
panics (`none`). Indices are character indices, which agree with byte
indices for the split at an ASCII byte. -/
def hostport (s : String) : Option (String × String) :=
  if s = "" then some ("", "")
  else
    let n := tcp.lastIndexByte s.toList ':'
    if n < 0 then none
    else some (String.mk (s.toList.take n.toNat), String.mk (s.toList.drop (n + 1).toNat))

/-- The entries of the map `fields`, in the order of the source. -/
def fieldsTable : List (String × field) :=
  [ ("$remote_addr", fun b e => some (b ++ e.Req.RemoteAddr)),
    ("$remote_host", fun b e => do
      let (host, _) ← hostport e.Req.RemoteAddr
      some (b ++ host)),
    ("$remote_port", fun b e => do
      let (_, port) ← hostport e.Req.RemoteAddr
      some (b ++ port)),
    ("$request", fun b e =>
      some (b ++ e.Req.Method ++ " " ++ e.Req.RequestURI ++ " " ++ e.Req.Proto)),
    ("$request_args", fun b e => some (b ++ e.Req.URL.RawQuery)),
    ("$request_host", fun b e => some (b ++ e.Req.Host)),
    ("$request_method", fun b e => some (b ++ e.Req.Method)),
    ("$request_uri", fun b e => some (b ++ e.Req.RequestURI)),
    ("$request_proto", fun b e => some (b ++ e.Req.Proto)),
    ("$response_body_size", fun b e => atoi b e.Resp.ContentLength 0),
    ("$response_status", fun b e => atoi b e.Resp.StatusCode 0),
    ("$response_time_ms", fun b e => do
      let d := e.End.Sub e.Start
      let s := d.tdiv Second
      let us := (d.tmod Second).tdiv Millisecond
      let b ← atoi b s 0
      let b := b ++ "."
      atoi b us 3),
    ("$response_time_us", fun b e => do
      let d := e.End.Sub e.Start
      let s := d.tdiv Second
      let us := (d.tmod Second).tdiv Microsecond
      let b ← atoi b s 0
      let b := b ++ "."
      atoi b us 6),
    ("$response_time_ns", fun b e => do
      let d := e.End.Sub e.Start
      let s := d.tdiv Second
      let ns := (d.tmod Second).tdiv Nanosecond
      let b ← atoi b s 0
      let b := b ++ "."
      atoi b ns 9),
    ("$time_unix_ms", fun b e => atoi b (e.End.UnixNano.tdiv Millisecond) 0),
    ("$time_unix_us", fun b e => atoi b (e.End.UnixNano.tdiv Microsecond) 0),
    ("$time_unix_ns", fun b e => atoi b e.End.UnixNano 0),
    ("$time_common", fun b e => do
      let b ← atoi b e.End.Day 2
      let b := b ++ "/"
      let m ← monthName e.End.Month
      let b := b ++ m
      let b := b ++ "/"
      let b ← atoi b e.End.Year 4
      let b := b ++ ":"
      let b ← atoi b e.End.Hour 2
      let b := b ++ ":"
      let b ← atoi b e.End.Minute 2
      let b := b ++ ":"
      let b ← atoi b e.End.Second 2
      some (b ++ " +0000")),
    ("$time_rfc3339", fun b e => do
      let b ← atoi b e.End.Year 4
      let b := b ++ "-"
      let b ← atoi b e.End.Month 2
      let b := b ++ "-"
      let b ← atoi b e.End.Day 2
      let b := b ++ "T"
      let b ← atoi b e.End.Hour 2
      let b := b ++ ":"
      let b ← atoi b e.End.Minute 2
      let b := b ++ ":"
      let b ← atoi b e.End.Second 2
      some (b ++ "Z")),
    ("$time_rfc3339_ms", fun b e => do
      let b ← atoi b e.End.Year 4
      let b := b ++ "-"
      let b ← atoi b e.End.Month 2
      let b := b ++ "-"
      let b ← atoi b e.End.Day 2
      let b := b ++ "T"
      let b ← atoi b e.End.Hour 2
      let b := b ++ ":"
      let b ← atoi b e.End.Minute 2
      let b := b ++ ":"
      let b ← atoi b e.End.Second 2
      let b := b ++ "."
      let b ← atoi b (e.End.Nanosecond.tdiv Millisecond) 3
      some (b ++ "Z")),
    ("$time_rfc3339_us", fun b e => do
      let b ← atoi b e.End.Year 4
      let b := b ++ "-"
      let b ← atoi b e.End.Month 2
      let b := b ++ "-"
      let b ← atoi b e.End.Day 2
      let b := b ++ "T"
      let b ← atoi b e.End.Hour 2
      let b := b ++ ":"
      let b ← atoi b e.End.Minute 2
      let b := b ++ ":"
      let b ← atoi b e.End.Second 2
      let b := b ++ "."
      let b ← atoi b (e.End.Nanosecond.tdiv Microsecond) 6
      some (b ++ "Z")),
    ("$time_rfc3339_ns", fun b e => do
      let b ← atoi b e.End.Year 4
      let b := b ++ "-"
      let b ← atoi b e.End.Month 2
      let b := b ++ "-"
      let b ← atoi b e.End.Day 2
      let b := b ++ "T"
      let b ← atoi b e.End.Hour 2
      let b := b ++ ":"
      let b ← atoi b e.End.Minute 2
      let b := b ++ ":"
      let b ← atoi b e.End.Second 2
      let b := b ++ "."
      let b ← atoi b e.End.Nanosecond 9
      some (b ++ "Z")),
    ("$upstream_addr", fun b e => some (b ++ e.UpstreamAddr)),
    ("$upstream_host", fun b e => do
      let (host, _) ← hostport e.UpstreamAddr
      some (b ++ host)),
    ("$upstream_port", fun b e => do
      let (_, port) ← hostport e.UpstreamAddr
      some (b ++ port)) ]

/-- The map `fields`: the lookup `fields[key]`, `none` when the key is not
there. -/
def fields (key : String) : Option field :=
  fieldsTable.lookup key

/-- An `io.Writer`, by identity: `os.Stdout` or some other writer. -/
inductive Writer where
  | Stdout
  | other (id : Nat)
  deriving DecidableEq, Repr

/-- The struct `logger` (without its mutex). -/
structure logger where
  p : pattern
  w : Writer

/-- The function `New(w, format)`; `w = none` is a nil writer. Returns
`(logger, err)` with `none` for nil; the outer `none` is reached only if
the loop of `parse` hits its bound. -/
def New (w : Option Writer) (format : String) : Option (Option logger × Option GoError) :=
  match parse format fields with
  | none => none
  | some (_, some err) => some (none, some err)
  | some (p, none) =>
    if p.length = 0 then some (none, some GoError.emptyLogFormat)
    else
      let w1 := match w with
        | none => Writer.Stdout
        | some x => x
      some (some { p := p, w := w1 }, none)

/-- An event for examples: a request that took 1.0425 seconds. -/
def exampleEvent : Event :=
  { Start := { UnixNano := 1500000000000000000, Year := 2017, Month := 7, Day := 14,
               Hour := 2, Minute := 40, Second := 0, Nanosecond := 0 }
    End := { UnixNano := 1500000001042500000, Year := 2017, Month := 7, Day := 14,
             Hour := 2, Minute := 40, Second := 1, Nanosecond := 42500000 }
    Req := { Method := "GET", RequestURI := "/", Proto := "HTTP/1.1", Host := "example.com",
             RemoteAddr := "10.0.0.1:51234", URL := { RawQuery := "" },
             Header := { Get := fun _ => "" } }
    Resp := { ContentLength := 512, StatusCode := 200 }
    UpstreamAddr := "10.0.0.2:8080" }

end logger

namespace tcp

/-- Modelled from the spec: outcome of the ClientHello sniffer before it is
turned into `(hostname, ok)`. The function `readServerName` is called by
`ServeTCP` but its source is not part of the files at hand. `found` is a
host name (spec 4.1 step 6); `absent` is a message without a host name
(step 4); `malformed` is a failed check or a length that runs past the end
(steps 1, 2, 7); `panic` is a read or a slice out of bounds, which the
checks are there to exclude; `fuel` is the bound of the two loops. -/
inductive Sniff where
  | found (name : List UInt8)
  | absent
  | malformed
  | panic
  | fuel
  deriving DecidableEq, Repr

/-- Whether the outcome is a host name. -/
def Sniff.isFound : Sniff → Bool
  | .found _ => true
  | _ => false

/-- Modelled from the spec: outcome of one read: the value, `short` when the
bounds check before the read fails, `oob` when a read or slice without
check is out of bounds. -/
inductive Read (α : Type) where
  | ok (a : α)
  | short
  | oob

/-- Modelled from the spec: the unchecked slices `bs[:n]` and `bs[n:]`; `none`
when `n` is past the end. -/
def rawSplit (n : Nat) (bs : List UInt8) : Option (List UInt8 × List UInt8) :=
  if n ≤ bs.length then some (bs.take n, bs.drop n) else none

/-- Modelled from the spec: the unchecked read `bs[i]`; `none` when `i` is
past the end. -/
def byteAt (bs : List UInt8) (i : Nat) : Option UInt8 :=
  bs.get? i

/-- Modelled from the spec: the bounds check before slicing (4.1 step 7), then
the slices: the first `n` bytes and the rest. -/
def takeN (n : Nat) (bs : List UInt8) : Read (List UInt8 × List UInt8) :=
  if bs.length < n then .short
  else
    match rawSplit n bs with
    | some p => .ok p
    | none => .oob

/-- Modelled from the spec: a field with a 1-byte length in front. -/
def block8 (bs : List UInt8) : Read (List UInt8 × List UInt8) :=
  match takeN 1 bs with
  | .short => .short
  | .oob => .oob
  | .ok (hdr, rest) =>
    match byteAt hdr 0 with
    | some n => takeN n.toNat rest
    | none => .oob

/-- Modelled from the spec: a field with a 2-byte big-endian length in front. -/
def block16 (bs : List UInt8) : Read (List UInt8 × List UInt8) :=
  match takeN 2 bs with
  | .short => .short
  | .oob => .oob
  | .ok (hdr, rest) =>
    match byteAt hdr 0, byteAt hdr 1 with
    | some a, some b => takeN (a.toNat * 256 + b.toNat) rest
    | _, _ => .oob

/-- Modelled from the spec: the entries of a server-name list (4.1 step 6),
each 1-byte name type, 2-byte name length, name; the first entry of type
`host_name` (0) is the result, and the entries behind it are not read. -/
def scanNames : Nat → List UInt8 → Sniff
  | _, [] => .absent
  | 0, _ :: _ => .fuel
  | fuel + 1, b :: bs =>
    match takeN 3 (b :: bs) with
    | .short => .malformed
    | .oob => .panic
    | .ok (hdr, rest) =>
      match byteAt hdr 0, byteAt hdr 1, byteAt hdr 2 with
      | some t, some l1, some l2 =>
        match takeN (l1.toNat * 256 + l2.toNat) rest with
        | .short => .malformed
        | .oob => .panic
        | .ok (name, rest1) => if t = 0 then .found name else scanNames fuel rest1
      | _, _, _ => .panic

/-- Modelled from the spec: the payload of a `server_name` extension (4.1
step 6): 2-byte list length, then the list. -/
def serverNameExt (payload : List UInt8) : Sniff :=
  match block16 payload with
  | .short => .malformed
  | .oob => .panic
  | .ok (list, _) => scanNames list.length list

/-- Modelled from the spec: the iteration over the extensions block (4.1
steps 5 to 7), each extension 2-byte type, 2-byte length, payload. The
iteration runs until the block is exhausted and checks the length of every
extension. `got` is the host name found so far: the first `server_name`
extension that has a `host_name` entry gives the result, and a
`server_name` extension behind it is passed over like an extension of any
other type. The spec does not say what is returned when no extension
yields a host name; as in step 4 this is `absent`. -/
def scanExts : Nat → Option (List UInt8) → List UInt8 → Sniff
  | _, got, [] =>
    match got with
    | some name => .found name
    | none => .absent
  | 0, _, _ :: _ => .fuel
  | fuel + 1, got, b :: bs =>
    match takeN 4 (b :: bs) with
    | .short => .malformed
    | .oob => .panic
    | .ok (hdr, rest) =>
      match byteAt hdr 0, byteAt hdr 1, byteAt hdr 2, byteAt hdr 3 with
      | some t1, some t2, some l1, some l2 =>
        match takeN (l1.toNat * 256 + l2.toNat) rest with
        | .short => .malformed
        | .oob => .panic
        | .ok (payload, rest1) =>
          if t1 = 0 ∧ t2 = 0 ∧ got = none then
            match serverNameExt payload with
            | .found name => scanExts fuel (some name) rest1
            | .absent => scanExts fuel none rest1
            | r => r
          else scanExts fuel got rest1
      | _, _, _, _ => .panic

/-- Modelled from the spec: 4.1 steps 4 and 5, what follows the compression
methods: nothing (no extensions), or the extensions block with its 2-byte
length. -/
def afterCompression (r : List UInt8) : Sniff :=
  if r = [] then .absent
  else
    match block16 r with
    | .short => .malformed
    | .oob => .panic
    | .ok (exts, _) => scanExts exts.length none exts

/-- Modelled from the spec: 4.1 step 3, skipping the compression methods. -/
def afterCipherSuites (r : List UInt8) : Sniff :=
  match block8 r with
  | .short => .malformed
  | .oob => .panic
  | .ok (_, r1) => afterCompression r1

/-- Modelled from the spec: 4.1 step 3, skipping the cipher suites. -/
def afterSessionId (r : List UInt8) : Sniff :=
  match block16 r with
  | .short => .malformed
  | .oob => .panic
  | .ok (_, r1) => afterCipherSuites r1

/-- Modelled from the spec: 4.1 step 3, skipping the session id. -/
def afterRandom (r : List UInt8) : Sniff :=
  match block8 r with
  | .short => .malformed
  | .oob => .panic
  | .ok (_, r1) => afterSessionId r1

/-- Modelled from the spec: 4.1 step 3 on the body of the ClientHello,
skipping the 2-byte client version and the 32-byte random. -/
def parseHello (hello : List UInt8) : Sniff :=
  match takeN 34 hello with
  | .short => .malformed
  | .oob => .panic
  | .ok (_, r) => afterRandom r

/-- Modelled from the spec: 4.1 step 2 on the record body: handshake type
`ClientHello` (1) and the 3-byte handshake length. -/
def parseHandshake (body : List UInt8) : Sniff :=
  match takeN 4 body with
  | .short => .malformed
  | .oob => .panic
  | .ok (hdr, rest) =>
    match byteAt hdr 0, byteAt hdr 1, byteAt hdr 2, byteAt hdr 3 with
    | some ht, some h1, some h2, some h3 =>
      if ht = 1 then
        match takeN (h1.toNat * 65536 + h2.toNat * 256 + h3.toNat) rest with
        | .short => .malformed
        | .oob => .panic
        | .ok (hello, _) => parseHello hello
      else .malformed
    | _, _, _, _ => .panic

/-- Modelled from the spec: 4.1 step 1 on the captured bytes: content type
`Handshake` (0x16), 2-byte version, 2-byte record length. -/
def sniff (data : List UInt8) : Sniff :=
  match takeN 5 data with
  | .short => .malformed
  | .oob => .panic
  | .ok (hdr, rest) =>
    match byteAt hdr 0, byteAt hdr 3, byteAt hdr 4 with
    | some ty, some l1, some l2 =>
      if ty = 22 then
        match takeN (l1.toNat * 256 + l2.toNat) rest with
        | .short => .malformed
        | .oob => .panic
        | .ok (body, _) => parseHandshake body
      else .malformed
    | _, _, _ => .panic

/-- A host name as a Go string: one character per byte, which is exact for
ASCII names. -/
def stringOf (name : List UInt8) : String :=
  String.mk (name.map fun b => Char.ofNat b.toNat)

/-- Modelled from the spec: the function `readServerName` (the spec's
`extract_server_name`), which `ServeTCP` calls and whose source is missing:
`(hostname, true)` when a host name was found, `("", false)` otherwise. -/
def readServerName (data : List UInt8) : String × Bool :=
  match sniff data with
  | .found name => (stringOf name, true)
  | _ => ("", false)

/-- Two bytes, big-endian. -/
def be16 (n : Nat) : List UInt8 := [UInt8.ofNat (n / 256), UInt8.ofNat (n % 256)]

/-- Three bytes, big-endian. -/
def be24 (n : Nat) : List UInt8 :=
  [UInt8.ofNat (n / 65536), UInt8.ofNat (n / 256 % 256), UInt8.ofNat (n % 256)]

/-- Wire form of one extension: type, length, payload. -/
def encodeExt (x : Nat × List UInt8) : List UInt8 :=
  be16 x.1 ++ be16 x.2.length ++ x.2

/-- Wire form of a list of extensions. -/
def encodeExts (xs : List (Nat × List UInt8)) : List UInt8 :=
  (xs.map encodeExt).flatten

/-- Wire form of one entry of a server-name list: name type, length, name. -/
def encodeName (x : UInt8 × List UInt8) : List UInt8 :=
  x.1 :: (be16 x.2.length ++ x.2)

/-- Wire form of a list of server-name entries. -/
def encodeNames (xs : List (UInt8 × List UInt8)) : List UInt8 :=
  (xs.map encodeName).flatten

/-- The parts of a ClientHello that carries a `server_name` extension with a
`host_name` entry: extensions and names are split into those before and
those after that entry. -/
structure ClientHello where
  recordVersion : UInt8 × UInt8
  clientVersion : UInt8 × UInt8
  random : List UInt8
  sessionId : List UInt8
  cipherSuites : List UInt8
  compression : List UInt8
  extsBefore : List (Nat × List UInt8)
  namesBefore : List (UInt8 × List UInt8)
  hostName : List UInt8
  namesAfter : List (UInt8 × List UInt8)
  extsAfter : List (Nat × List UInt8)

namespace ClientHello

/-- The server-name list. -/
def nameList (h : ClientHello) : List UInt8 :=
  encodeNames h.namesBefore ++ encodeName (0, h.hostName) ++ encodeNames h.namesAfter

/-- The payload of the `server_name` extension. -/
def sniPayload (h : ClientHello) : List UInt8 :=
  be16 h.nameList.length ++ h.nameList

/-- The extensions block. -/
def extBlock (h : ClientHello) : List UInt8 :=
  encodeExts h.extsBefore ++ encodeExt (0, h.sniPayload) ++ encodeExts h.extsAfter

/-- The body of the ClientHello message. -/
def body (h : ClientHello) : List UInt8 :=
  [h.clientVersion.1, h.clientVersion.2] ++ h.random
    ++ UInt8.ofNat h.sessionId.length :: h.sessionId
    ++ be16 h.cipherSuites.length ++ h.cipherSuites
    ++ UInt8.ofNat h.compression.length :: h.compression
    ++ be16 h.extBlock.length ++ h.extBlock

/-- The handshake message: type, length, body. -/
def handshake (h : ClientHello) : List UInt8 :=
  1 :: (be24 h.body.length ++ h.body)

/-- The TLS record: content type, version, length, handshake message. -/
def record (h : ClientHello) : List UInt8 :=
  22 :: h.recordVersion.1 :: h.recordVersion.2 :: (be16 h.handshake.length ++ h.handshake)

/-- Well-formedness: the random has 32 bytes, every length fits its length
field, no extension before the `server_name` extension has type 0, and no
name before the host name has type 0. -/
def WellFormed (h : ClientHello) : Prop :=
  h.random.length = 32
  ∧ h.sessionId.length < 256
  ∧ h.cipherSuites.length < 65536
  ∧ h.compression.length < 256
  ∧ (∀ x ∈ h.extsBefore, x.1 ≠ 0 ∧ x.1 < 65536 ∧ x.2.length < 65536)
  ∧ (∀ x ∈ h.extsAfter, x.1 < 65536 ∧ x.2.length < 65536)
  ∧ (∀ x ∈ h.namesBefore, x.1 ≠ 0 ∧ x.2.length < 65536)
  ∧ (∀ x ∈ h.namesAfter, x.2.length < 65536)
  ∧ h.hostName.length < 65536
  ∧ h.nameList.length < 65536
  ∧ h.sniPayload.length < 65536
  ∧ h.extBlock.length < 65536
  ∧ h.body.length < 16777216
  ∧ h.handshake.length < 65536

end ClientHello

instance (h : ClientHello) : Decidable h.WellFormed := by
  unfold ClientHello.WellFormed
  infer_instance

/-- The parser `f` finds no host name in `x`, nor in any buffer that `x`
continues: whatever slice of such a buffer reaches `f`. -/
def NeverFound (f : List UInt8 → Sniff) (x : List UInt8) : Prop :=
  ∀ y, y <+: x → ∀ name, f y ≠ .found name

/-- The parser `f` rejects `x` and every buffer that `x` continues. -/
def Rejects (f : List UInt8 → Sniff) (x : List UInt8) : Prop :=
  ∀ y, y <+: x → f y = .malformed ∨ f y = .panic ∨ f y = .fuel

/-- A buffer up to the session-id length: `hdr` are the record header and the
handshake header (9 bytes), `vr` the client version and the random (34
bytes), `x` is what follows. -/
def behindRandom (hdr vr x : List UInt8) : List UInt8 :=
  hdr ++ (vr ++ x)

/-- A buffer up to the cipher-suites length: as before, then the session id
`sid` with its length. -/
def behindSessionId (hdr vr sid x : List UInt8) : List UInt8 :=
  behindRandom hdr vr (UInt8.ofNat sid.length :: (sid ++ x))

/-- A buffer up to the compression-methods length: as before, then the cipher
suites `cs` with their length. -/
def behindCipherSuites (hdr vr sid cs x : List UInt8) : List UInt8 :=
  behindSessionId hdr vr sid (be16 cs.length ++ (cs ++ x))

/-- A buffer up to the extensions-block length: as before, then the
compression methods `cm` with their length. -/
def behindCompression (hdr vr sid cs cm x : List UInt8) : List UInt8 :=
  behindCipherSuites hdr vr sid cs (UInt8.ofNat cm.length :: (cm ++ x))

/-- A small ClientHello for `example.com`: TLS 1.2, one cipher suite, an
`ec_point_formats` extension before and a `supported_versions` extension
after the `server_name` extension. -/
def exampleHello : ClientHello :=
  { recordVersion := (3, 1)
    clientVersion := (3, 3)
    random := List.replicate 32 7
    sessionId := []
    cipherSuites := [19, 1]
    compression := [0]
    extsBefore := [(11, [1, 0])]
    namesBefore := []
    hostName := bytesOf "example.com"
    namesAfter := []
    extsAfter := [(43, [2, 3, 4])] }

/-- Record header and handshake header of `exampleHello`. -/
def exampleHdr : List UInt8 := [22, 3, 1, 0, 80, 1, 0, 0, 76]

/-- Client version and random of `exampleHello`. -/
def exampleVr : List UInt8 := 3 :: 3 :: List.replicate 32 7

/-- The record of `exampleHello` with the length of its last extension, which
stands behind the `server_name` extension, changed from 3 to 65535. -/
def laterOverrun : List UInt8 :=
  behindCompression exampleHdr exampleVr [] [19, 1] [0]
    (0 :: 33 :: (encodeExts [(11, [1, 0]), (0, exampleHello.sniPayload)]
      ++ 0 :: 43 :: 255 :: 255 :: [2, 3, 4]))

/-- A record whose server-name list holds the host name `example.com` and
behind it an entry of type 1 that declares a name of 65535 bytes, of which
one is there. All other lengths are exact. -/
def nameBehindHostName : List UInt8 :=
  behindCompression [22, 3, 1, 0, 77, 1, 0, 0, 73] exampleVr [] [19, 1] [0]
    (0 :: 30 :: (encodeExts [(11, [1, 0])]
      ++ 0 :: 0 :: 0 :: 20 :: 0 :: 18
      :: (encodeNames [(0, bytesOf "example.com")] ++ 1 :: 255 :: 255 :: [9])))

/-- A ClientHello for `example.com` with a second `server_name` extension
behind the one that holds the host name; the second one declares a
server-name list of 65535 bytes, of which none is there. -/
def laterServerNameHello : ClientHello :=
  { recordVersion := (3, 1)
    clientVersion := (3, 3)
    random := List.replicate 32 7
    sessionId := []
    cipherSuites := [19, 1]
    compression := [0]
    extsBefore := []
    namesBefore := []
    hostName := bytesOf "example.com"
    namesAfter := []
    extsAfter := [(0, [255, 255])] }

/-- The record of `laterServerNameHello`, byte by byte. -/
def laterServerName : List UInt8 :=
  behindCompression [22, 3, 1, 0, 73, 1, 0, 0, 69] exampleVr [] [19, 1] [0]
    (0 :: 26 :: (encodeExts [(0, exampleHello.sniPayload)]
      ++ 0 :: 0 :: 0 :: 2 :: 255 :: 255 :: []))

/-- A record whose first extension is a `server_name` extension with an empty
server-name list and whose second extension declares 65535 bytes, of which
one is there. -/
def overrunBehindEmptyList : List UInt8 :=
  behindCompression [22, 3, 1, 0, 58, 1, 0, 0, 54] exampleVr [] [19, 1] [0]
    (0 :: 11 :: (encodeExts [(0, [0, 0])] ++ 0 :: 43 :: 255 :: 255 :: [2]))

/-- The record of `exampleHello` cut off after the first four bytes of the host
name, whose declared length is 11. -/
def cutInName : List UInt8 :=
  behindCompression exampleHdr exampleVr [] [19, 1] [0]
    (0 :: 33 :: (encodeExts [(11, [1, 0])]
      ++ 0 :: 0 :: 0 :: 16 :: 0 :: 14 :: (encodeNames [] ++ 0 :: 0 :: 11 :: bytesOf "exam")))

end tcp

/-! ## Theorems: `ServeTCP` -/

namespace tcp

/-- The format of line 73 never hits an unmodelled verb. -/
theorem Sprintf_header (a b c d : String) :
    Sprintf "PROXY TCP4 %s %s %d %d\r\n" [.str a, .str b, .str c, .str d]
      = some (header a b c d) := rfl

/-- The text of `header` for arbitrary operands: both ports are rendered
through the bad-verb form of `%d` on a string. -/
theorem header_eq (a b c d : String) :
    header a b c d
      = "PROXY TCP4 " ++ a ++ " " ++ b ++ " %!d(string=" ++ c ++ ") %!d(string=" ++ d ++ ")\r\n" := by
  apply String.ext
  simp [header, Sprintf, sprintfLoop, fmtArg, fmtExtra, String.singleton]

/-! ### One equation per path through `ServeTCP` -/

section paths

variable (p : SNIProxyProxy) (w : World)

theorem path_read_err {buf : List UInt8} {err : GoError}
    (hr : w.inRead 1024 = (buf, some err)) :
    ServeTCP p w = (.returned (some err), [.read 1024, .closeIn]) := by
  simp [ServeTCP, serveBody, hr]

theorem path_not_ok {buf : List UInt8} {host : String}
    (hr : w.inRead 1024 = (buf, none))
    (hs : w.readServerName (buf.take 1024) = (host, false)) :
    ServeTCP p w = (.returned none, [.read 1024, .sniff (buf.take 1024), .closeIn]) := by
  simp [ServeTCP, serveBody, hr, hs]

theorem path_no_name {buf : List UInt8}
    (hr : w.inRead 1024 = (buf, none))
    (hs : w.readServerName (buf.take 1024) = ("", true)) :
    ServeTCP p w = (.returned none, [.read 1024, .sniff (buf.take 1024), .closeIn]) := by
  simp [ServeTCP, serveBody, hr, hs]

theorem path_no_route {buf : List UInt8} {host : String}
    (hr : w.inRead 1024 = (buf, none))
    (hs : w.readServerName (buf.take 1024) = (host, true)) (hh : host ≠ "")
    (hl : p.Lookup host = "") :
    ServeTCP p w
      = (.returned none, [.read 1024, .sniff (buf.take 1024), .lookup host, .closeIn]) := by
  simp [ServeTCP, serveBody, hr, hs, hh, hl]

theorem path_dial_err {buf : List UInt8} {host : String} {err : GoError}
    (hr : w.inRead 1024 = (buf, none))
    (hs : w.readServerName (buf.take 1024) = (host, true)) (hh : host ≠ "")
    (hl : p.Lookup host ≠ "")
    (hd : w.dial (p.Lookup host) p.DialTimeout = some err) :
    ServeTCP p w
      = (.returned (some err),
          [.read 1024, .sniff (buf.take 1024), .lookup host, .dial (p.Lookup host) false,
           .closeIn]) := by
  simp [ServeTCP, serveBody, hr, hs, hh, hl, hd]

theorem path_src_err {buf : List UInt8} {host a b : String} {err : GoError}
    (hr : w.inRead 1024 = (buf, none))
    (hs : w.readServerName (buf.take 1024) = (host, true)) (hh : host ≠ "")
    (hl : p.Lookup host ≠ "")
    (hd : w.dial (p.Lookup host) p.DialTimeout = none)
    (h1 : SplitHostPort w.remoteAddr = (a, b, some err)) :
    ServeTCP p w
      = (.returned (some err),
          [.read 1024, .sniff (buf.take 1024), .lookup host, .dial (p.Lookup host) true,
           .closeOut, .closeIn]) := by
  simp [ServeTCP, serveBody, hr, hs, hh, hl, hd, h1]

theorem path_dst_err {buf : List UInt8} {host sa sp a b : String} {err : GoError}
    (hr : w.inRead 1024 = (buf, none))
    (hs : w.readServerName (buf.take 1024) = (host, true)) (hh : host ≠ "")
    (hl : p.Lookup host ≠ "")
    (hd : w.dial (p.Lookup host) p.DialTimeout = none)
    (h1 : SplitHostPort w.remoteAddr = (sa, sp, none))
    (h2 : SplitHostPort (p.Lookup host) = (a, b, some err)) :
    ServeTCP p w
      = (.returned (some err),
          [.read 1024, .sniff (buf.take 1024), .lookup host, .dial (p.Lookup host) true,
           .closeOut, .closeIn]) := by
  simp [ServeTCP, serveBody, hr, hs, hh, hl, hd, h1, h2]

theorem path_header_err {buf : List UInt8} {host sa sp da dp : String} {n : Nat}
    {err : GoError}
    (hr : w.inRead 1024 = (buf, none))
    (hs : w.readServerName (buf.take 1024) = (host, true)) (hh : host ≠ "")
    (hl : p.Lookup host ≠ "")
    (hd : w.dial (p.Lookup host) p.DialTimeout = none)
    (h1 : SplitHostPort w.remoteAddr = (sa, sp, none))
    (h2 : SplitHostPort (p.Lookup host) = (da, dp, none))
    (hw : w.outWrite 0 (bytesOf (header sa da sp dp)) = some (n, err)) :
    ServeTCP p w
      = (.returned (some err),
          [.read 1024, .sniff (buf.take 1024), .lookup host, .dial (p.Lookup host) true,
           .write ((bytesOf (header sa da sp dp)).take n) (some err),
           .closeOut, .closeIn]) := by
  simp [ServeTCP, serveBody, hr, hs, hh, hl, hd, h1, h2, hw]

theorem path_replay_err {buf : List UInt8} {host sa sp da dp : String} {n : Nat}
    {err : GoError}
    (hr : w.inRead 1024 = (buf, none))
    (hs : w.readServerName (buf.take 1024) = (host, true)) (hh : host ≠ "")
    (hl : p.Lookup host ≠ "")
    (hd : w.dial (p.Lookup host) p.DialTimeout = none)
    (h1 : SplitHostPort w.remoteAddr = (sa, sp, none))
    (h2 : SplitHostPort (p.Lookup host) = (da, dp, none))
    (hw : w.outWrite 0 (bytesOf (header sa da sp dp)) = none)
    (hx : w.outWrite 1 (buf.take 1024) = some (n, err)) :
    ServeTCP p w
      = (.returned (some err),
          [.read 1024, .sniff (buf.take 1024), .lookup host, .dial (p.Lookup host) true,
           .write (bytesOf (header sa da sp dp)) none,
           .write ((buf.take 1024).take n) (some err),
           .closeOut, .closeIn]) := by
  simp [ServeTCP, serveBody, hr, hs, hh, hl, hd, h1, h2, hw, hx]

theorem path_copy {buf : List UInt8} {host sa sp da dp : String}
    (hr : w.inRead 1024 = (buf, none))
    (hs : w.readServerName (buf.take 1024) = (host, true)) (hh : host ≠ "")
    (hl : p.Lookup host ≠ "")
    (hd : w.dial (p.Lookup host) p.DialTimeout = none)
    (h1 : SplitHostPort w.remoteAddr = (sa, sp, none))
    (h2 : SplitHostPort (p.Lookup host) = (da, dp, none))
    (hw : w.outWrite 0 (bytesOf (header sa da sp dp)) = none)
    (hx : w.outWrite 1 (buf.take 1024) = none) :
    ServeTCP p w
      = (copyPhase w,
          [.read 1024, .sniff (buf.take 1024), .lookup host, .dial (p.Lookup host) true,
           .write (bytesOf (header sa da sp dp)) none, .write (buf.take 1024) none, .copy]
          ++ (if copyPhase w = .blocked then [] else [.closeOut, .closeIn])) := by
  simp only [ServeTCP, serveBody, hr, hs, hh, hl, hd, h1, h2, hw, hx, if_false]
  cases copyPhase w <;> simp

/-- Case analysis over the paths of `ServeTCP`: a property that holds of the
result on each path holds of `ServeTCP p w`. -/
theorem ServeTCP_elim (P : Outcome × List Action → Prop)
    (c1 : ∀ err, P (.returned (some err), [.read 1024, .closeIn]))
    (c2 : P (.returned none, [.read 1024, .sniff (capturedPrefix w), .closeIn]))
    (c3 : P (.returned none,
      [.read 1024, .sniff (capturedPrefix w), .lookup (serverName w), .closeIn]))
    (c4 : ∀ err, P (.returned (some err),
      [.read 1024, .sniff (capturedPrefix w), .lookup (serverName w), .dial (upstreamAddr p w) false,
       .closeIn]))
    (c5 : ∀ err, P (.returned (some err),
      [.read 1024, .sniff (capturedPrefix w), .lookup (serverName w), .dial (upstreamAddr p w) true,
       .closeOut, .closeIn]))
    (c6 : ∀ n err, P (.returned (some err),
      [.read 1024, .sniff (capturedPrefix w), .lookup (serverName w), .dial (upstreamAddr p w) true,
       .write ((bytesOf (sentHeader p w)).take n) (some err), .closeOut, .closeIn]))
    (c7 : ∀ n err, P (.returned (some err),
      [.read 1024, .sniff (capturedPrefix w), .lookup (serverName w), .dial (upstreamAddr p w) true,
       .write (bytesOf (sentHeader p w)) none,
       .write ((capturedPrefix w).take n) (some err), .closeOut, .closeIn]))
    (c8 : P (copyPhase w,
      [.read 1024, .sniff (capturedPrefix w), .lookup (serverName w), .dial (upstreamAddr p w) true,
       .write (bytesOf (sentHeader p w)) none, .write (capturedPrefix w) none, .copy]
       ++ (if copyPhase w = .blocked then [] else [.closeOut, .closeIn]))) :
    P (ServeTCP p w) := by
  rcases hr : w.inRead 1024 with ⟨buf, _ | err⟩
  swap
  · rw [path_read_err p w hr]; exact c1 err
  have hcp : capturedPrefix w = buf.take 1024 := by simp [capturedPrefix, hr]
  rcases hs : w.readServerName (buf.take 1024) with ⟨host, _ | _⟩
  · rw [path_not_ok p w hr hs, ← hcp]; exact c2
  have hsn : serverName w = host := by simp [serverName, hcp, hs]
  have hua : upstreamAddr p w = p.Lookup host := by simp [upstreamAddr, hsn]
  by_cases hh : host = ""
  · subst hh; rw [path_no_name p w hr hs, ← hcp]; exact c2
  by_cases hl : p.Lookup host = ""
  · rw [path_no_route p w hr hs hh hl, ← hcp, ← hsn]; exact c3
  rcases hd : w.dial (p.Lookup host) p.DialTimeout with _ | err
  swap
  · rw [path_dial_err p w hr hs hh hl hd, ← hcp, ← hua, ← hsn]; exact c4 err
  rcases h1 : SplitHostPort w.remoteAddr with ⟨sa, sp, _ | err⟩
  swap
  · rw [path_src_err p w hr hs hh hl hd h1, ← hcp, ← hua, ← hsn]; exact c5 err
  rcases h2 : SplitHostPort (p.Lookup host) with ⟨da, dp, _ | err⟩
  swap
  · rw [path_dst_err p w hr hs hh hl hd h1 h2, ← hcp, ← hua, ← hsn]; exact c5 err
  have hsh : sentHeader p w = header sa da sp dp := by simp [sentHeader, hua, h1, h2]
  rcases hw : w.outWrite 0 (bytesOf (header sa da sp dp)) with _ | ⟨n, err⟩
  swap
  · rw [path_header_err p w hr hs hh hl hd h1 h2 hw, ← hcp, ← hua, ← hsh, ← hsn]; exact c6 n err
  rcases hx : w.outWrite 1 (buf.take 1024) with _ | ⟨n, err⟩
  swap
  · rw [path_replay_err p w hr hs hh hl hd h1 h2 hw hx, ← hcp, ← hua, ← hsh, ← hsn]
    exact c7 n err
  rw [path_copy p w hr hs hh hl hd h1 h2 hw hx, ← hcp, ← hua, ← hsh, ← hsn]; exact c8

end paths

/-- The copy phase returns whenever a completion is in `errc`. -/
theorem copyPhase_of_first (w : World) (first : Option GoError)
    (rest : List (Option GoError)) (h : errcSends w = first :: rest) :
    copyPhase w = .returned (if first = none ∨ first = some GoError.eof then none else first) := by
  unfold copyPhase
  rw [h]
  by_cases h1 : first = none
  · simp [h1]
  by_cases h2 : first = some GoError.eof
  · simp [h2]
  simp [h1, h2]

/-- The header `ServeTCP` formats is never the PROXY protocol line built from
the same four strings: it is longer by the two bad-verb wrappers. -/
theorem header_ne_proxy_line (a b c d : String) :
    header a b c d ≠ "PROXY TCP4 " ++ a ++ " " ++ b ++ " " ++ c ++ " " ++ d ++ "\r\n" := by
  intro h
  have hlen := congrArg String.length h
  rw [header_eq] at hlen
  simp only [String.length_append] at hlen
  have e1 : " %!d(string=".length = 12 := by decide
  have e2 : ") %!d(string=".length = 13 := by decide
  have e3 : ")\r\n".length = 3 := by decide
  have e4 : " ".length = 1 := by decide
  have e5 : "\r\n".length = 2 := by decide
  omega

/-! ### The claims about `ServeTCP` -/

/-- C1, evaluated at source `10.0.0.1:51234` and destination `10.0.0.2:443`:
both addresses split as expected, but the header `ServeTCP` formats and
writes first to the upstream is
`PROXY TCP4 10.0.0.1 10.0.0.2 %!d(string=51234) %!d(string=443)\r\n`, which is
not the line `PROXY TCP4 10.0.0.1 10.0.0.2 51234 443\r\n`: the ports are
strings and are formatted with `%d`. -/
theorem ServeTCP_header_example :
    SplitHostPort "10.0.0.1:51234" = ("10.0.0.1", "51234", none)
    ∧ SplitHostPort "10.0.0.2:443" = ("10.0.0.2", "443", none)
    ∧ header "10.0.0.1" "10.0.0.2" "51234" "443"
        = "PROXY TCP4 10.0.0.1 10.0.0.2 %!d(string=51234) %!d(string=443)\r\n"
    ∧ header "10.0.0.1" "10.0.0.2" "51234" "443"
        ≠ "PROXY TCP4 10.0.0.1 10.0.0.2 51234 443\r\n"
    ∧ writesOf (ServeTCP exampleProxy exampleWorld).2
        = [bytesOf "PROXY TCP4 10.0.0.1 10.0.0.2 %!d(string=51234) %!d(string=443)\r\n",
           [22, 3, 1]] := by
  refine ⟨by decide, by decide, by decide, by decide, by decide⟩

/-- C2: whenever `ServeTCP` reaches the copy phase, its trace up to the start of
the two copy goroutines is: the single read into a 1024-byte buffer, the
sniff, the lookup, the successful dial, one complete write of the header
`ServeTCP` formatted, one complete write of the captured bytes. So the
writes to the outbound connection before copying are exactly that header and
then the captured bytes, unaltered, and these are at most 1024 bytes. -/
theorem ServeTCP_writes_before_copy (p : SNIProxyProxy) (w : World)
    (h : Action.copy ∈ (ServeTCP p w).2) :
    ∃ post,
      (ServeTCP p w).2
        = [.read 1024, .sniff (capturedPrefix w), .lookup (serverName w), .dial (upstreamAddr p w) true,
           .write (bytesOf (sentHeader p w)) none, .write (capturedPrefix w) none]
          ++ Action.copy :: post
      ∧ Action.copy ∉ post
      ∧ writesOf post = []
      ∧ writesOf [.read 1024, .sniff (capturedPrefix w), .lookup (serverName w),
          .dial (upstreamAddr p w) true, .write (bytesOf (sentHeader p w)) none,
          .write (capturedPrefix w) none]
          = [bytesOf (sentHeader p w), capturedPrefix w]
      ∧ capturedPrefix w = (w.inRead 1024).1.take 1024
      ∧ (capturedPrefix w).length ≤ 1024 := by
  revert h
  refine ServeTCP_elim p w
    (fun r => Action.copy ∈ r.2 → ∃ post,
      r.2 = [.read 1024, .sniff (capturedPrefix w), .lookup (serverName w), .dial (upstreamAddr p w) true,
           .write (bytesOf (sentHeader p w)) none, .write (capturedPrefix w) none]
          ++ Action.copy :: post
      ∧ Action.copy ∉ post
      ∧ writesOf post = []
      ∧ writesOf [.read 1024, .sniff (capturedPrefix w), .lookup (serverName w),
          .dial (upstreamAddr p w) true, .write (bytesOf (sentHeader p w)) none,
          .write (capturedPrefix w) none]
          = [bytesOf (sentHeader p w), capturedPrefix w]
      ∧ capturedPrefix w = (w.inRead 1024).1.take 1024
      ∧ (capturedPrefix w).length ≤ 1024) ?_ ?_ ?_ ?_ ?_ ?_ ?_ ?_
  · intro err h; simp at h
  · intro h; simp at h
  · intro h; simp at h
  · intro err h; simp at h
  · intro err h; simp at h
  · intro n err h; simp at h
  · intro n err h; simp at h
  · intro _
    refine ⟨if copyPhase w = .blocked then [] else [.closeOut, .closeIn], ?_, ?_, ?_, ?_,
      rfl, ?_⟩
    · simp
    · split <;> simp
    · split <;> simp [writesOf]
    · simp [writesOf]
    · simp [capturedPrefix, List.length_take]

/-- A run of `ServeTCP` that reaches the copy phase (C2 applied to it). -/
theorem ServeTCP_writes_before_copy_witness :
    Action.copy ∈ (ServeTCP exampleProxy exampleWorld).2
    ∧ ∃ post,
      (ServeTCP exampleProxy exampleWorld).2
        = [.read 1024, .sniff (capturedPrefix exampleWorld), .lookup (serverName exampleWorld),
           .dial (upstreamAddr exampleProxy exampleWorld) true,
           .write (bytesOf (sentHeader exampleProxy exampleWorld)) none,
           .write (capturedPrefix exampleWorld) none]
          ++ Action.copy :: post
      ∧ Action.copy ∉ post
      ∧ writesOf post = []
      ∧ writesOf [.read 1024, .sniff (capturedPrefix exampleWorld), .lookup (serverName exampleWorld),
          .dial (upstreamAddr exampleProxy exampleWorld) true,
          .write (bytesOf (sentHeader exampleProxy exampleWorld)) none,
          .write (capturedPrefix exampleWorld) none]
          = [bytesOf (sentHeader exampleProxy exampleWorld), capturedPrefix exampleWorld]
      ∧ capturedPrefix exampleWorld = (exampleWorld.inRead 1024).1.take 1024
      ∧ (capturedPrefix exampleWorld).length ≤ 1024 :=
  ⟨by decide, ServeTCP_writes_before_copy exampleProxy exampleWorld (by decide)⟩

/-- C3: when the read succeeds, the sniffer reports a non-empty server name and
`Lookup` returns the empty string for it, `ServeTCP` returns nil after the
read, the sniff and the lookup; it closes the inbound connection, and its
trace has no dial and no write. -/
theorem ServeTCP_no_route (p : SNIProxyProxy) (w : World) (buf : List UInt8) (host : String)
    (hr : w.inRead 1024 = (buf, none))
    (hs : w.readServerName (buf.take 1024) = (host, true))
    (hh : host ≠ "") (hl : p.Lookup host = "") :
    ServeTCP p w
      = (.returned none, [.read 1024, .sniff (buf.take 1024), .lookup host, .closeIn])
    ∧ (∀ addr ok, Action.dial addr ok ∉ (ServeTCP p w).2)
    ∧ (∀ sent err, Action.write sent err ∉ (ServeTCP p w).2)
    ∧ Action.copy ∉ (ServeTCP p w).2 := by
  have e := path_no_route p w hr hs hh hl
  rw [e]
  simp

/-- A run in which `Lookup` knows no route for `example.com` (C3 applied). -/
theorem ServeTCP_no_route_witness :
    ServeTCP { exampleProxy with Lookup := fun _ => "" } exampleWorld
      = (.returned none,
          [.read 1024, .sniff [22, 3, 1], .lookup "example.com", .closeIn]) :=
  (ServeTCP_no_route { exampleProxy with Lookup := fun _ => "" } exampleWorld
    [22, 3, 1] "example.com" rfl rfl (by decide) rfl).1

/-- C4: when the read succeeds and the sniffer reports `ok = false`, or
`ok = true` with an empty host name, `ServeTCP` returns nil after the read
and the sniff; its trace has no lookup, no dial, no write and no copy. -/
theorem ServeTCP_no_name (p : SNIProxyProxy) (w : World) (buf : List UInt8)
    (hr : w.inRead 1024 = (buf, none))
    (hs : (w.readServerName (buf.take 1024)).2 = false
      ∨ w.readServerName (buf.take 1024) = ("", true)) :
    ServeTCP p w = (.returned none, [.read 1024, .sniff (buf.take 1024), .closeIn])
    ∧ (∀ host, Action.lookup host ∉ (ServeTCP p w).2)
    ∧ (∀ addr ok, Action.dial addr ok ∉ (ServeTCP p w).2)
    ∧ (∀ sent err, Action.write sent err ∉ (ServeTCP p w).2)
    ∧ Action.copy ∉ (ServeTCP p w).2 := by
  have e : ServeTCP p w = (.returned none, [.read 1024, .sniff (buf.take 1024), .closeIn]) := by
    rcases hs with hs | hs
    · rcases hx : w.readServerName (buf.take 1024) with ⟨host, ok⟩
      rw [hx] at hs
      simp only at hs
      subst hs
      exact path_not_ok p w hr hx
    · exact path_no_name p w hr hs
  rw [e]
  simp

/-- Runs with an unrecognised handshake and with an empty server name (C4
applied to both). -/
theorem ServeTCP_no_name_witness :
    ServeTCP exampleProxy { exampleWorld with readServerName := fun _ => ("", false) }
      = (.returned none, [.read 1024, .sniff [22, 3, 1], .closeIn])
    ∧ ServeTCP exampleProxy { exampleWorld with readServerName := fun _ => ("", true) }
      = (.returned none, [.read 1024, .sniff [22, 3, 1], .closeIn]) :=
  ⟨(ServeTCP_no_name exampleProxy
      { exampleWorld with readServerName := fun _ => ("", false) } [22, 3, 1] rfl
      (Or.inl rfl)).1,
   (ServeTCP_no_name exampleProxy
      { exampleWorld with readServerName := fun _ => ("", true) } [22, 3, 1] rfl
      (Or.inr rfl)).1⟩

/-- C5: every failure is terminal and propagated. In each of the six cases
(the initial read fails, with `io.EOF` or any other error; the dial fails;
the split of the peer address fails; the split of the upstream address
fails; the header write fails; the replay write fails) `ServeTCP` returns
that step's error, and its trace stops at the failing step: nothing but the
deferred closes follows it, and no step occurs twice. -/
theorem ServeTCP_failure_terminal (p : SNIProxyProxy) (w : World) :
    (∀ buf err, w.inRead 1024 = (buf, some err) →
      ServeTCP p w = (.returned (some err), [.read 1024, .closeIn]))
    ∧ (∀ err, (w.inRead 1024).2 = none → (w.readServerName (capturedPrefix w)).2 = true →
        serverName w ≠ "" → upstreamAddr p w ≠ "" →
        w.dial (upstreamAddr p w) p.DialTimeout = some err →
        ServeTCP p w = (.returned (some err),
          [.read 1024, .sniff (capturedPrefix w), .lookup (serverName w),
           .dial (upstreamAddr p w) false, .closeIn]))
    ∧ (∀ err, (w.inRead 1024).2 = none → (w.readServerName (capturedPrefix w)).2 = true →
        serverName w ≠ "" → upstreamAddr p w ≠ "" →
        w.dial (upstreamAddr p w) p.DialTimeout = none →
        (SplitHostPort w.remoteAddr).2.2 = some err →
        ServeTCP p w = (.returned (some err),
          [.read 1024, .sniff (capturedPrefix w), .lookup (serverName w),
           .dial (upstreamAddr p w) true, .closeOut, .closeIn]))
    ∧ (∀ err, (w.inRead 1024).2 = none → (w.readServerName (capturedPrefix w)).2 = true →
        serverName w ≠ "" → upstreamAddr p w ≠ "" →
        w.dial (upstreamAddr p w) p.DialTimeout = none →
        (SplitHostPort w.remoteAddr).2.2 = none →
        (SplitHostPort (upstreamAddr p w)).2.2 = some err →
        ServeTCP p w = (.returned (some err),
          [.read 1024, .sniff (capturedPrefix w), .lookup (serverName w),
           .dial (upstreamAddr p w) true, .closeOut, .closeIn]))
    ∧ (∀ n err, (w.inRead 1024).2 = none → (w.readServerName (capturedPrefix w)).2 = true →
        serverName w ≠ "" → upstreamAddr p w ≠ "" →
        w.dial (upstreamAddr p w) p.DialTimeout = none →
        (SplitHostPort w.remoteAddr).2.2 = none →
        (SplitHostPort (upstreamAddr p w)).2.2 = none →
        w.outWrite 0 (bytesOf (sentHeader p w)) = some (n, err) →
        ServeTCP p w = (.returned (some err),
          [.read 1024, .sniff (capturedPrefix w), .lookup (serverName w),
           .dial (upstreamAddr p w) true,
           .write ((bytesOf (sentHeader p w)).take n) (some err), .closeOut, .closeIn]))
    ∧ (∀ n err, (w.inRead 1024).2 = none → (w.readServerName (capturedPrefix w)).2 = true →
        serverName w ≠ "" → upstreamAddr p w ≠ "" →
        w.dial (upstreamAddr p w) p.DialTimeout = none →
        (SplitHostPort w.remoteAddr).2.2 = none →
        (SplitHostPort (upstreamAddr p w)).2.2 = none →
        w.outWrite 0 (bytesOf (sentHeader p w)) = none →
        w.outWrite 1 (capturedPrefix w) = some (n, err) →
        ServeTCP p w = (.returned (some err),
          [.read 1024, .sniff (capturedPrefix w), .lookup (serverName w),
           .dial (upstreamAddr p w) true, .write (bytesOf (sentHeader p w)) none,
           .write ((capturedPrefix w).take n) (some err), .closeOut, .closeIn])) := by
  refine ⟨fun buf err hr => path_read_err p w hr, ?_⟩
  rcases hr : w.inRead 1024 with ⟨buf, _ | e0⟩
  swap
  · simp
  have hcp : capturedPrefix w = buf.take 1024 := by simp [capturedPrefix, hr]
  rcases hs : w.readServerName (buf.take 1024) with ⟨host, _ | _⟩
  · simp [hcp, hs]
  have hsn : serverName w = host := by simp [serverName, hcp, hs]
  have hua : upstreamAddr p w = p.Lookup host := by simp [upstreamAddr, hsn]
  rw [hcp, hsn, hua, hs]
  rcases h1 : SplitHostPort w.remoteAddr with ⟨sa, sp, e1⟩
  rcases h2 : SplitHostPort (p.Lookup host) with ⟨da, dp, e2⟩
  have hsh : sentHeader p w = header sa da sp dp := by simp [sentHeader, hua, h1, h2]
  rw [hsh]
  refine ⟨?_, ?_, ?_, ?_, ?_⟩
  · intro err _ _ hh hl hd
    exact path_dial_err p w hr hs hh hl hd
  · intro err _ _ hh hl hd he
    simp only at he
    subst he
    exact path_src_err p w hr hs hh hl hd h1
  · intro err _ _ hh hl hd he1 he2
    simp only at he1 he2
    subst he1 he2
    exact path_dst_err p w hr hs hh hl hd h1 h2
  · intro n err _ _ hh hl hd he1 he2 hw
    simp only at he1 he2
    subst he1 he2
    exact path_header_err p w hr hs hh hl hd h1 h2 hw
  · intro n err _ _ hh hl hd he1 he2 hw hx
    simp only at he1 he2
    subst he1 he2
    exact path_replay_err p w hr hs hh hl hd h1 h2 hw hx

/-- One failing run for each case of C5 (the theorem applied to each): a read
that ends with `io.EOF`, a refused dial, a peer address without port, an
upstream address without port, a header write that fails after 5 bytes, a
replay write that fails after 1 byte. -/
theorem ServeTCP_failure_terminal_witness :
    ServeTCP exampleProxy { exampleWorld with inRead := fun _ => ([], some .eof) }
      = (.returned (some .eof), [.read 1024, .closeIn])
    ∧ ServeTCP exampleProxy { exampleWorld with dial := fun _ _ => some (.other "refused") }
      = (.returned (some (.other "refused")),
          [.read 1024, .sniff [22, 3, 1], .lookup "example.com", .dial "10.0.0.2:443" false,
           .closeIn])
    ∧ ServeTCP exampleProxy { exampleWorld with remoteAddr := "pipe" }
      = (.returned (some (.addr "missing port in address" "pipe")),
          [.read 1024, .sniff [22, 3, 1], .lookup "example.com", .dial "10.0.0.2:443" true,
           .closeOut, .closeIn])
    ∧ ServeTCP { exampleProxy with Lookup := fun _ => "upstream" } exampleWorld
      = (.returned (some (.addr "missing port in address" "upstream")),
          [.read 1024, .sniff [22, 3, 1], .lookup "example.com", .dial "upstream" true,
           .closeOut, .closeIn])
    ∧ ServeTCP exampleProxy
        { exampleWorld with outWrite := fun _ _ => some (5, .other "broken pipe") }
      = (.returned (some (.other "broken pipe")),
          [.read 1024, .sniff [22, 3, 1], .lookup "example.com", .dial "10.0.0.2:443" true,
           .write [80, 82, 79, 88, 89] (some (.other "broken pipe")), .closeOut, .closeIn])
    ∧ ServeTCP exampleProxy
        { exampleWorld with
          outWrite := fun k _ => if k = 0 then none else some (1, .other "broken pipe") }
      = (.returned (some (.other "broken pipe")),
          [.read 1024, .sniff [22, 3, 1], .lookup "example.com", .dial "10.0.0.2:443" true,
           .write (bytesOf (header "10.0.0.1" "10.0.0.2" "51234" "443")) none,
           .write [22] (some (.other "broken pipe")), .closeOut, .closeIn]) :=
  ⟨(ServeTCP_failure_terminal exampleProxy
      { exampleWorld with inRead := fun _ => ([], some .eof) }).1 [] .eof rfl,
   (ServeTCP_failure_terminal exampleProxy
      { exampleWorld with dial := fun _ _ => some (.other "refused") }).2.1
      (.other "refused") rfl rfl (by decide) (by decide) rfl,
   (ServeTCP_failure_terminal exampleProxy
      { exampleWorld with remoteAddr := "pipe" }).2.2.1
      (.addr "missing port in address" "pipe") rfl rfl (by decide) (by decide) rfl
      (by decide),
   (ServeTCP_failure_terminal { exampleProxy with Lookup := fun _ => "upstream" }
      exampleWorld).2.2.2.1
      (.addr "missing port in address" "upstream") rfl rfl (by decide) (by decide) rfl
      (by decide) (by decide),
   (ServeTCP_failure_terminal exampleProxy
      { exampleWorld with outWrite := fun _ _ => some (5, .other "broken pipe") }).2.2.2.2.1
      5 (.other "broken pipe") rfl rfl (by decide) (by decide) rfl (by decide) (by decide)
      rfl,
   (ServeTCP_failure_terminal exampleProxy
      { exampleWorld with
        outWrite := fun k _ => if k = 0 then none else some (1, .other "broken pipe") }).2.2.2.2.2
      1 (.other "broken pipe") rfl rfl (by decide) (by decide) rfl (by decide) (by decide)
      rfl rfl⟩

/-- C6: whenever `ServeTCP` returns (with an error or with nil), closing the
inbound connection is the last action of its trace and happens once, and
the outbound connection is closed (once) if and only if a dial succeeded. -/
theorem ServeTCP_closes (p : SNIProxyProxy) (w : World) (err : Option GoError)
    (h : (ServeTCP p w).1 = .returned err) :
    (ServeTCP p w).2.getLast? = some Action.closeIn
    ∧ (ServeTCP p w).2.count Action.closeIn = 1
    ∧ (Action.closeOut ∈ (ServeTCP p w).2 ↔ ∃ addr, Action.dial addr true ∈ (ServeTCP p w).2)
    ∧ (ServeTCP p w).2.count Action.closeOut ≤ 1 := by
  revert h
  refine ServeTCP_elim p w
    (fun r => r.1 = .returned err →
      r.2.getLast? = some Action.closeIn
      ∧ r.2.count Action.closeIn = 1
      ∧ (Action.closeOut ∈ r.2 ↔ ∃ addr, Action.dial addr true ∈ r.2)
      ∧ r.2.count Action.closeOut ≤ 1) ?_ ?_ ?_ ?_ ?_ ?_ ?_ ?_
  · intro e _; simp [List.count_cons]
  · intro _; simp [List.count_cons]
  · intro _; simp [List.count_cons]
  · intro e _; simp [List.count_cons]
  · intro e _; simp [List.count_cons]
  · intro n e _; simp [List.count_cons]
  · intro n e _; simp [List.count_cons]
  · intro h
    simp only at h
    have hb : copyPhase w ≠ .blocked := by rw [h]; simp
    simp [hb, List.count_cons]

/-- C6 applied to a run that dials and to a run that fails before dialling. -/
theorem ServeTCP_closes_witness :
    ((ServeTCP exampleProxy exampleWorld).2.getLast? = some Action.closeIn
      ∧ Action.closeOut ∈ (ServeTCP exampleProxy exampleWorld).2)
    ∧ ((ServeTCP exampleProxy
          { exampleWorld with inRead := fun _ => ([], some .eof) }).2.getLast?
          = some Action.closeIn
      ∧ Action.closeOut ∉ (ServeTCP exampleProxy
          { exampleWorld with inRead := fun _ => ([], some .eof) }).2) :=
  ⟨⟨(ServeTCP_closes exampleProxy exampleWorld none (by decide)).1, by decide⟩,
   ⟨(ServeTCP_closes exampleProxy { exampleWorld with inRead := fun _ => ([], some .eof) }
      (some .eof) (by decide)).1, by decide⟩⟩

/-- C7: when `ServeTCP` reaches the copy phase and `first` is the first value
sent on `errc` by the two copy goroutines, `ServeTCP` returns nil if `first`
is nil or `io.EOF` and returns `first` otherwise, whatever else is sent on
`errc` (`rest`: nothing, or the completion of the other direction). -/
theorem ServeTCP_copy_result (p : SNIProxyProxy) (w : World) (first : Option GoError)
    (rest : List (Option GoError))
    (hc : Action.copy ∈ (ServeTCP p w).2) (h : errcSends w = first :: rest) :
    (ServeTCP p w).1
      = .returned (if first = none ∨ first = some GoError.eof then none else first) := by
  revert hc
  refine ServeTCP_elim p w
    (fun r => Action.copy ∈ r.2 →
      r.1 = .returned (if first = none ∨ first = some GoError.eof then none else first))
    ?_ ?_ ?_ ?_ ?_ ?_ ?_ ?_
  · intro err h; simp at h
  · intro h; simp at h
  · intro h; simp at h
  · intro err h; simp at h
  · intro err h; simp at h
  · intro n err h; simp at h
  · intro n err h; simp at h
  · intro _
    exact copyPhase_of_first w first rest h

/-- C7 applied to three runs: the upstream-bound copy fails first with a reset
and the other direction then ends cleanly; the same first failure with the
other direction never ending; the first completion is `io.EOF` and the
other direction then fails. -/
theorem ServeTCP_copy_result_witness :
    (ServeTCP exampleProxy
        { exampleWorld with copyUp := some (some (.other "reset")), copyDown := some none }).1
      = .returned (some (.other "reset"))
    ∧ (ServeTCP exampleProxy
        { exampleWorld with copyUp := some (some (.other "reset")), copyDown := none }).1
      = .returned (some (.other "reset"))
    ∧ (ServeTCP exampleProxy
        { exampleWorld with copyUp := some (some .eof),
                            copyDown := some (some (.other "reset")) }).1
      = .returned none :=
  ⟨ServeTCP_copy_result exampleProxy
      { exampleWorld with copyUp := some (some (.other "reset")), copyDown := some none }
      (some (.other "reset")) [none] (by decide) rfl,
   ServeTCP_copy_result exampleProxy
      { exampleWorld with copyUp := some (some (.other "reset")), copyDown := none }
      (some (.other "reset")) [] (by decide) rfl,
   ServeTCP_copy_result exampleProxy
      { exampleWorld with copyUp := some (some .eof),
                          copyDown := some (some (.other "reset")) }
      (some .eof) [some (.other "reset")] (by decide) rfl⟩

end tcp

/-! ## Theorems: the access logger -/

namespace logger

open itemType state

/-! ### `atoi` -/

theorem digit_char (k : Nat) (h : k < 10) :
    Char.ofNat ((48 + k) % 256) = Nat.digitChar k := by
  interval_cases k <;> rfl

theorem byteOf_tmod (n : Nat) : byteOf ((n : Int).tmod 10) = n % 10 := by
  unfold byteOf
  rw [Int.tmod_eq_emod (by omega) (by omega)]
  omega

theorem tdiv_ten (n : Nat) : (n : Int).tdiv 10 = ((n / 10 : Nat) : Int) := by
  rw [Int.tdiv_eq_ediv (by omega) (by omega)]
  omega

/-- The accumulator of `Nat.toDigitsCore` stays at the end of the result. -/
theorem toDigitsCore_append (fuel : Nat) : ∀ (n : Nat) (ds : List Char),
    Nat.toDigitsCore 10 fuel n ds = Nat.toDigitsCore 10 fuel n [] ++ ds := by
  induction fuel with
  | zero => intro n ds; simp [Nat.toDigitsCore]
  | succ f ih =>
    intro n ds
    simp only [Nat.toDigitsCore]
    split
    · simp
    · rw [ih (n / 10) (Nat.digitChar (n % 10) :: ds), ih (n / 10) [Nat.digitChar (n % 10)]]
      simp

/-- The result of `Nat.toDigitsCore` does not depend on the fuel, once there
is enough of it. -/
theorem toDigitsCore_fuel (f1 : Nat) : ∀ (f2 n : Nat), n < f1 → n < f2 →
    Nat.toDigitsCore 10 f1 n [] = Nat.toDigitsCore 10 f2 n [] := by
  induction f1 with
  | zero => intro f2 n h; omega
  | succ f ih =>
    intro f2 n h1 h2
    cases f2 with
    | zero => omega
    | succ g =>
      simp only [Nat.toDigitsCore]
      split
      · rfl
      · rw [toDigitsCore_append f, toDigitsCore_append g, ih g (n / 10) (by omega) (by omega)]

/-- The digit loop of `atoi` on a non-negative value writes the digits of
`Nat.toDigitsCore` in front of what is there, if the cells suffice. -/
theorem atoiDigits_eq (fuel : Nat) : ∀ (n slots : Nat) (out : List Char), n < fuel →
    (Nat.toDigitsCore 10 fuel n []).length ≤ slots →
    atoiDigits slots (n : Int) out
      = some (slots - (Nat.toDigitsCore 10 fuel n []).length,
              Nat.toDigitsCore 10 fuel n [] ++ out) := by
  induction fuel with
  | zero => intro n slots out h; omega
  | succ f ih =>
    intro n slots out h hlen
    have hc : Char.ofNat ((48 + byteOf ((n : Int).tmod 10)) % 256) = Nat.digitChar (n % 10) := by
      rw [byteOf_tmod]; exact digit_char _ (Nat.mod_lt _ (by decide))
    simp only [Nat.toDigitsCore] at hlen ⊢
    by_cases h0 : n / 10 = 0
    · simp only [h0, if_true, List.length_singleton] at hlen ⊢
      cases slots with
      | zero => omega
      | succ s =>
        have hi : (0 : Int) ≤ (n : Int) := by omega
        simp [atoiDigits, hc, tdiv_ten, h0]
    · simp only [h0, if_false] at hlen ⊢
      rw [toDigitsCore_append] at hlen ⊢
      simp only [List.length_append, List.length_singleton] at hlen
      cases slots with
      | zero => omega
      | succ s =>
        have hi : (0 : Int) ≤ (n : Int) := by omega
        have h10 : ((n / 10 : Nat) : Int) ≠ 0 := by omega
        have := ih (n / 10) s (Nat.digitChar (n % 10) :: out) (by omega) (by omega)
        simp only [atoiDigits, hc, tdiv_ten, hi, ge_iff_le, if_true, h10, if_false, this]
        simp

/-- A value below `2 ^ 63` has at most 19 decimal digits. -/
theorem toDigits_length_le (n : Nat) (h : n < 2 ^ 63) : (Nat.toDigits 10 n).length ≤ 19 := by
  unfold Nat.toDigits
  exact Nat.toDigitsCore_length 10 (by decide) (n + 1) n 19 (by omega) (by decide)

/-- The padding loop of `atoi`: zeros are written until `pad` characters are
there. -/
theorem atoiPad_eq : ∀ (s : Nat) (pad : Int) (out : List Char), out.length + s = 128 →
    pad ≤ 128 →
    atoiPad s pad out
      = some (s - (pad.toNat - out.length),
              List.replicate (pad.toNat - out.length) '0' ++ out) := by
  intro s
  induction s with
  | zero =>
    intro pad out h hp
    have : pad.toNat - out.length = 0 := by omega
    simp only [atoiPad, this]
    have hn : ¬ ((128 : Int) - (0 - 1) - 1 < pad) := by omega
    rw [if_neg hn]
    simp
  | succ s ih =>
    intro pad out h hp
    simp only [atoiPad]
    by_cases hc : (128 : Int) - ((s + 1 : Nat) - 1) - 1 < pad
    · simp only [hc, if_true]
      rw [ih pad ('0' :: out) (by simp; omega) hp]
      have e : pad.toNat - out.length = (pad.toNat - (out.length + 1)) + 1 := by
        push_cast at hc; omega
      simp only [List.length_cons]
      rw [e, List.replicate_succ']
      simp
    · simp only [hc, if_false]
      have : pad.toNat - out.length = 0 := by push_cast at hc; omega
      simp [this]

/-- The function `atoi` on a non-negative `int64`: zeros up to `pad`
characters, then the decimal digits. -/
theorem atoi_nonneg (b : String) (n : Nat) (pad : Int) (h : n < 2 ^ 63) (hp : pad ≤ 108) :
    atoi b (n : Int) pad
      = some (b ++ String.mk (List.replicate (pad.toNat - (Nat.toDigits 10 n).length) '0'
          ++ Nat.toDigits 10 n)) := by
  have hl := toDigits_length_le n h
  have hd := atoiDigits_eq (n + 1) n 128 [] (by omega) (by unfold Nat.toDigits at hl; omega)
  have e : Nat.toDigitsCore 10 (n + 1) n [] = Nat.toDigits 10 n := rfl
  rw [e] at hd
  have hi : ¬ ((n : Int) < 0) := by omega
  simp only [atoi, hi, if_false, hd, List.append_nil, decide_False]
  rw [atoiPad_eq _ pad _ (by omega) (by omega)]
  simp

/-- The function `atoi` on a negative `int64` other than the least one: a
minus sign, zeros up to `pad` characters, then the decimal digits. -/
theorem atoi_neg (b : String) (n : Nat) (pad : Int) (h0 : 0 < n) (h : n < 2 ^ 63)
    (hp : pad ≤ 108) :
    atoi b (-(n : Int)) pad
      = some (b ++ String.mk ('-' :: (List.replicate (pad.toNat - (Nat.toDigits 10 n).length) '0'
          ++ Nat.toDigits 10 n))) := by
  have hl := toDigits_length_le n h
  have hd := atoiDigits_eq (n + 1) n 128 [] (by omega) (by unfold Nat.toDigits at hl; omega)
  have e : Nat.toDigitsCore 10 (n + 1) n [] = Nat.toDigits 10 n := rfl
  rw [e] at hd
  have hi : (-(n : Int) < 0) := by omega
  have hw : wrap64 (- -(n : Int)) = (n : Int) := by unfold wrap64; omega
  simp only [atoi, hi, if_true, hw, hd, List.append_nil, decide_True]
  rw [atoiPad_eq _ pad _ (by omega) (by omega)]
  have : ∃ k, 128 - (Nat.toDigits 10 n).length
      - (pad.toNat - (Nat.toDigits 10 n).length) = k + 1 := ⟨_, (Nat.succ_pred_eq_of_pos (by omega)).symm⟩
  obtain ⟨k, hk⟩ := this
  simp [hk]

/-- Away from the least `int64`, `atoi(b, i, 0)` appends the decimal
representation of `i`. -/
theorem atoi_eq_toString (b : String) (i : Int) (h1 : -2 ^ 63 < i) (h2 : i < 2 ^ 63) :
    atoi b i 0 = some (b ++ toString i) := by
  rcases i with n | m
  · have := atoi_nonneg b n 0 (by simpa using h2) (by omega)
    simp only [Int.ofNat_eq_coe] at this ⊢
    rw [this]
    simp [toString, Nat.repr, List.asString]
  · have := atoi_neg b (m + 1) 0 (by omega) (by simp [Int.negSucc_eq] at h1; omega) (by omega)
    have e : Int.negSucc m = -((m + 1 : Nat) : Int) := by rw [Int.negSucc_eq]; push_cast; rfl
    have ht : toString (Int.negSucc m) = String.mk ('-' :: Nat.toDigits 10 (m + 1)) := by
      apply String.ext
      simp [toString, Nat.repr, List.asString]
    rw [ht, e, this]
    simp

/-- C8, evaluated at the least `int64`: negating `-9223372036854775808` wraps
around to itself, the digit loop `for i >= 0` is never entered, and
`atoi(b, i, 0)` appends just `-`, not the decimal representation
`-9223372036854775808`. -/
theorem atoi_min_int64 :
    wrap64 (- (-9223372036854775808)) = -9223372036854775808
    ∧ atoi "" (-9223372036854775808) 0 = some "-"
    ∧ toString (-9223372036854775808 : Int) = "-9223372036854775808"
    ∧ atoi "" (-9223372036854775808) 0 ≠ some ("" ++ toString (-9223372036854775808 : Int)) := by
  refine ⟨by decide, by decide, by decide, by decide⟩

/-! ### `lex` -/

/-- The loop of `lex` returns a length between 1 and `len(s)`, from every
state but the start state at the end of the input. -/
theorem lexLoop_bounds (s : List Char) : ∀ (rest : List Char) (st : state) (i : Nat),
    minIdx st ≤ i → i + rest.length = s.length → (st = stateStart → rest ≠ []) →
    1 ≤ (lexLoop s st i rest).2 ∧ (lexLoop s st i rest).2 ≤ s.length := by
  intro rest
  induction rest with
  | nil =>
    intro st i hm hl hs
    cases st <;> simp [lexLoop, minIdx] at hm hs ⊢ <;> simp at hl <;> omega
  | cons r rest ih =>
    intro st i hm hl hs
    simp only [List.length_cons] at hl
    cases st <;> simp only [lexLoop, minIdx] at hm ⊢
    · split
      · exact ih _ _ (by simp [minIdx]) (by omega) (by simp)
      · exact ih _ _ (by simp [minIdx]) (by omega) (by simp)
    · split
      · simp; omega
      · exact ih _ _ (by simp [minIdx]) (by omega) (by simp)
    · split
      · exact ih _ _ (by simp [minIdx]) (by omega) (by simp)
      · exact ih _ _ (by simp [minIdx]) (by omega) (by simp)
    · split
      · split
        · exact ih _ _ (by simp [minIdx]; omega) (by omega) (by simp)
        · simp; omega
      · split
        · exact ih _ _ (by simp [minIdx]) (by omega) (by simp)
        · simp; omega
    · split
      · exact ih _ _ (by simp [minIdx]) (by omega) (by simp)
      · simp; omega
    · split
      · exact ih _ _ (by simp [minIdx]) (by omega) (by simp)
      · simp; omega

/-- On a non-empty input `lex` consumes at least one rune and no more than
there are. -/
theorem lex_bounds (r : Char) (rest : List Char) :
    1 ≤ (lex (r :: rest)).2 ∧ (lex (r :: rest)).2 ≤ (r :: rest).length :=
  lexLoop_bounds (r :: rest) (r :: rest) stateStart 0 (by simp [minIdx]) (by simp) (by simp)

/-! ### `parse` -/

/-- The items of a format string, put together again, are the format string:
the bound in `items` is never reached. -/
theorem items_join : ∀ (fuel : Nat) (s : List Char), s.length ≤ fuel →
    ((items fuel s).map fun it => it.2.toList).flatten = s := by
  intro fuel
  induction fuel with
  | zero =>
    intro s h
    cases s with
    | nil => simp [items]
    | cons r rest => simp at h
  | succ f ih =>
    intro s h
    cases s with
    | nil => simp [items]
    | cons r rest =>
      have hb := lex_bounds r rest
      simp only [items, List.map_cons, List.flatten_cons]
      rw [ih _ (by simp only [List.length_drop, List.length_cons] at h ⊢; omega)]
      exact List.take_append_drop _ _

/-- The loop of `parse` in terms of the items: it stops with the error naming
the first unknown field item, or else returns the fields of all items. -/
theorem parseLoop_eq (fields : String → Option field) : ∀ (fuel : Nat) (s : List Char)
    (p : pattern), s.length ≤ fuel →
    parseLoop fields fuel s p
      = some (match firstUnknown fields (items fuel s) with
          | some val => ([], some (GoError.invalidField val))
          | none => (p ++ (items fuel s).filterMap (fieldOf fields), none)) := by
  intro fuel
  induction fuel with
  | zero =>
    intro s p h
    cases s with
    | nil => simp [parseLoop, items, firstUnknown]
    | cons r rest => simp at h
  | succ f ih =>
    intro s p h
    cases s with
    | nil => simp [parseLoop, items, firstUnknown]
    | cons r rest =>
      have hb := lex_bounds r rest
      have hlen : ((r :: rest).drop (lex (r :: rest)).2).length ≤ f := by
        simp only [List.length_drop, List.length_cons] at h ⊢; omega
      simp only [parseLoop, items]
      rcases hlex : lex (r :: rest) with ⟨typ, n⟩
      rw [hlex] at hlen
      simp only at hlen ⊢
      cases typ with
      | itemText =>
        simp only [firstUnknown]
        rw [ih _ _ hlen]
        simp [fieldOf, List.filterMap_cons]
      | itemHeader =>
        simp only [firstUnknown]
        rw [ih _ _ hlen]
        simp [fieldOf, List.filterMap_cons]
      | itemField =>
        simp only [firstUnknown]
        rcases hf : fields (String.mk ((r :: rest).take n)) with _ | fn
        · simp
        · simp only [Option.isNone_some, Bool.false_eq_true, and_false, if_false]
          rw [ih _ _ hlen]
          simp [fieldOf, List.filterMap_cons, hf]

/-- An unknown field item exists exactly if there is a first one. -/
theorem firstUnknown_isSome (fields : String → Option field) :
    ∀ its : List (itemType × String),
      (∃ val, firstUnknown fields its = some val)
        ↔ ∃ it ∈ its, it.1 = itemField ∧ fields it.2 = none := by
  intro its
  induction its with
  | nil => simp [firstUnknown]
  | cons it rest ih =>
    simp only [firstUnknown, List.mem_cons]
    by_cases h : it.1 = itemField ∧ fields it.2 = none
    · simp only [h, Option.isNone_none, and_self, if_true]
      exact ⟨fun _ => ⟨it, Or.inl rfl, h⟩, fun _ => ⟨_, rfl⟩⟩
    · have h2 : ¬ (it.1 = itemField ∧ (fields it.2).isNone = true) := by
        rw [Option.isNone_iff_eq_none]; exact h
      simp only [h2, if_false]
      rw [ih]
      constructor
      · rintro ⟨x, hx, hp⟩; exact ⟨x, Or.inr hx, hp⟩
      · rintro ⟨x, hx | hx, hp⟩
        · subst hx; exact absurd hp h
        · exact ⟨x, hx, hp⟩

/-- The first unknown field item is an unknown field item, and no item before
it is one. -/
theorem firstUnknown_spec (fields : String → Option field) :
    ∀ (its : List (itemType × String)) (val : String), firstUnknown fields its = some val →
      ∃ pre post, its = pre ++ (itemField, val) :: post ∧ fields val = none
        ∧ ∀ it ∈ pre, ¬ (it.1 = itemField ∧ fields it.2 = none) := by
  intro its
  induction its with
  | nil => intro val h; simp [firstUnknown] at h
  | cons it rest ih =>
    intro val h
    simp only [firstUnknown] at h
    by_cases hc : it.1 = itemField ∧ fields it.2 = none
    · simp only [hc, Option.isNone_none, and_self, if_true, Option.some.injEq] at h
      refine ⟨[], rest, ?_, ?_, by simp⟩
      · rcases it with ⟨t, v⟩
        simp only at hc h
        simp [hc.1, h]
      · rw [← h]; exact hc.2
    · have h2 : ¬ (it.1 = itemField ∧ (fields it.2).isNone = true) := by
        rw [Option.isNone_iff_eq_none]; exact hc
      simp only [h2, if_false] at h
      obtain ⟨pre, post, e, hv, hp⟩ := ih val h
      refine ⟨it :: pre, post, by simp [e], hv, ?_⟩
      intro x hx
      rcases List.mem_cons.mp hx with hx | hx
      · subst hx; exact hc
      · exact hp x hx

/-- C9: `parse` always returns, and it returns an error exactly if some item
that `lex` classifies as a field has no entry in the fields map (header
items are never looked up). In that case the returned pattern is nil and
the error is `invalid field` with the text of the first such item. -/
theorem parse_error_iff (format : String) (fields : String → Option field) :
    ∃ p err, parse format fields = some (p, err)
      ∧ (err ≠ none ↔
          ∃ it ∈ items format.length format.toList, it.1 = itemField ∧ fields it.2 = none)
      ∧ (∀ e, err = some e → p = [] ∧ ∃ pre val post,
          items format.length format.toList = pre ++ (itemField, val) :: post
          ∧ fields val = none
          ∧ (∀ it ∈ pre, ¬ (it.1 = itemField ∧ fields it.2 = none))
          ∧ e = GoError.invalidField val) := by
  have hp := parseLoop_eq fields format.length format.toList [] (Nat.le_of_eq rfl)
  have hiff := firstUnknown_isSome fields (items format.length format.toList)
  rcases hu : firstUnknown fields (items format.length format.toList) with _ | val
  · rw [hu] at hp hiff
    refine ⟨_, none, hp, ?_, ?_⟩
    · simp only [ne_eq, not_true_eq_false, false_iff]
      rw [← hiff]
      simp
    · intro e he; simp at he
  · rw [hu] at hp hiff
    refine ⟨[], some (GoError.invalidField val), hp, ?_, ?_⟩
    · simp only [ne_eq, reduceCtorEq, not_false_eq_true, true_iff]
      exact hiff.mp ⟨val, rfl⟩
    · intro e he
      obtain ⟨pre, post, h1, h2, h3⟩ := firstUnknown_spec fields _ val hu
      refine ⟨rfl, pre, val, post, h1, h2, h3, ?_⟩
      simpa using he.symm

/-- In the header state the loop of `lex` runs over identifier characters to
the end of the input. -/
theorem lexLoop_header (s : List Char) : ∀ (rest : List Char) (i : Nat),
    (∀ c ∈ rest, isIDChar c = true) →
    lexLoop s stateHeader i rest = (itemHeader, s.length) := by
  intro rest
  induction rest with
  | nil => intro i _; simp [lexLoop]
  | cons r rest ih =>
    intro i h
    have hr : isIDChar r = true := h r (by simp)
    simp only [lexLoop, hr, if_true]
    exact ih _ (fun c hc => h c (by simp [hc]))

/-- The whole of `$header.<name>` is one header item. -/
theorem lex_header (name : List Char) (hne : name ≠ [])
    (hid : ∀ c ∈ name, isIDChar c = true) :
    lex ("$header.".toList ++ name) = (itemHeader, 8 + name.length) := by
  cases name with
  | nil => exact absurd rfl hne
  | cons c cs =>
    have hc : isIDChar c = true := hid c (by simp)
    have h1 : isIDChar 'h' = true := by decide
    have h2 : isIDChar 'e' = true := by decide
    have h3 : isIDChar 'a' = true := by decide
    have h4 : isIDChar 'd' = true := by decide
    have h5 : isIDChar 'r' = true := by decide
    have e : "$header.".toList = ['$', 'h', 'e', 'a', 'd', 'e', 'r', '.'] := by decide
    have e7 : "$header".toList = ['$', 'h', 'e', 'a', 'd', 'e', 'r'] := by decide
    rw [e]
    simp only [lex, List.cons_append, List.nil_append, lexLoop, if_true, h1, h2, h3, h4, h5, hc,
      e7, List.take_succ_cons, List.take_zero]
    rw [lexLoop_header _ cs _ (fun x hx => hid x (by simp [hx]))]
    simp +decide
    omega

/-- C10: for every non-empty `name` made of the characters `[a-zA-Z0-9_-]`,
`parse("$header." + name, fields)` returns no error and a pattern of exactly
one field, and that field appends `e.Req.Header.Get(name)` to the buffer,
whatever the fields map is. -/
theorem parse_header (name : String) (fields : String → Option field)
    (hne : name ≠ "") (hid : ∀ c ∈ name.toList, isIDChar c = true) :
    ∃ f : field, parse ("$header." ++ name) fields = some ([f], none)
      ∧ ∀ (b : String) (e : Event), f b e = some (b ++ e.Req.Header.Get name) := by
  have hne2 : name.toList ≠ [] := by
    intro h
    apply hne
    apply String.ext
    simpa using h
  have hlex := lex_header name.toList hne2 hid
  have e8 : "$header.".toList = ['$', 'h', 'e', 'a', 'd', 'e', 'r', '.'] := by decide
  refine ⟨header name, ?_, fun b e => rfl⟩
  have hl : ("$header." ++ name).length = (7 + name.length) + 1 := by
    simp only [String.length_append]
    have : "$header.".length = 8 := by decide
    omega
  have ht : ("$header." ++ name).toList
      = '$' :: ('h' :: 'e' :: 'a' :: 'd' :: 'e' :: 'r' :: '.' :: name.toList) := by
    simp [e8]
  rw [e8] at hlex
  simp only [List.cons_append, List.nil_append] at hlex
  unfold parse
  rw [hl, ht]
  simp only [parseLoop, hlex]
  have hlen : name.toList.length = name.length := rfl
  have hd : (String.mk ('$' :: 'h' :: 'e' :: 'a' :: 'd' :: 'e' :: 'r' :: '.' :: name.toList)).drop
      "$header.".length = name := by
    rw [String.drop_eq]
    have : "$header.".length = 8 := by decide
    rw [this]
    rfl
  have hfull : ('$' :: 'h' :: 'e' :: 'a' :: 'd' :: 'e' :: 'r' :: '.' :: name.toList).length
      = 8 + name.toList.length := by simp; omega
  rw [← hfull, List.drop_length, List.take_length, hd]
  cases 7 + name.length <;> simp [parseLoop]

/-- C10 applied to the header name `User-Agent`. -/
theorem parse_header_witness :
    ∃ f : field, parse ("$header." ++ "User-Agent") (fun _ => none) = some ([f], none)
      ∧ ∀ (b : String) (e : Event), f b e = some (b ++ e.Req.Header.Get "User-Agent") :=
  parse_header "User-Agent" (fun _ => none) (by decide) (by decide)

end logger

/-! ## Theorems: the log fields, `hostport` and `New` -/

namespace logger

open itemType state

/-- A value below 1000 padded to three characters is its three decimal
digits. -/
theorem pad_three (m : Nat) (h : m < 1000) :
    List.replicate (3 - (Nat.toDigits 10 m).length) '0' ++ Nat.toDigits 10 m
      = [Nat.digitChar (m / 100), Nat.digitChar (m / 10 % 10), Nat.digitChar (m % 10)] := by
  have e : ∀ f : Nat, f = 997 → Nat.toDigits 10 m = Nat.toDigitsCore 10 (f + 1 + 1 + 1) m [] :=
    fun f hf => toDigitsCore_fuel (m + 1) (f + 1 + 1 + 1) m (by omega) (by omega)
  rw [e 997 rfl]
  generalize 997 = f
  simp only [Nat.toDigitsCore]
  by_cases h1 : m / 10 = 0
  · have a : m / 100 = 0 := by omega
    have b : m % 10 = m := by omega
    simp [h1, a, b, List.replicate]
    rfl
  · by_cases h2 : m / 10 / 10 = 0
    · have a : m / 100 = 0 := by omega
      simp [h1, h2, a, List.replicate]
      rfl
    · have a : m / 10 / 10 = m / 100 := by omega
      have h3 : ¬ m / 100 = 0 := by omega
      have h4 : m / 100 / 10 = 0 := by omega
      have b : m / 100 % 10 = m / 100 := by omega
      simp [h1, a, h3, h4, b]

/-- C11: for an event whose `End` is not before `Start`, with `d` the elapsed
nanoseconds (`e.End.Sub(e.Start).Nanoseconds()`, which is then not negative),
the field `$response_time_ms` appends the decimal representation of
`d div 10^9`, a dot, and the three decimal digits of `(d mod 10^9) div 10^6`
(hundreds, tens, units, so zeros on the left when the value is small). -/
theorem response_time_ms (b : String) (e : Event)
    (h : e.Start.UnixNano ≤ e.End.UnixNano) :
    ∃ f : field, fields "$response_time_ms" = some f
      ∧ 0 ≤ e.End.Sub e.Start
      ∧ f b e = some (b ++ toString (e.End.Sub e.Start / 10 ^ 9) ++ "."
          ++ String.mk
              [Nat.digitChar ((e.End.Sub e.Start % 10 ^ 9 / 10 ^ 6).toNat / 100),
               Nat.digitChar ((e.End.Sub e.Start % 10 ^ 9 / 10 ^ 6).toNat / 10 % 10),
               Nat.digitChar ((e.End.Sub e.Start % 10 ^ 9 / 10 ^ 6).toNat % 10)]) := by
  have hd0 : 0 ≤ e.End.Sub e.Start := by
    unfold Time.Sub
    simp only
    split
    · omega
    · split <;> omega
  have hd1 : e.End.Sub e.Start < 2 ^ 63 := by
    unfold Time.Sub
    simp only
    split
    · omega
    · split <;> omega
  refine ⟨_, by simp [fields, fieldsTable, List.lookup]; rfl, hd0, ?_⟩
  generalize e.End.Sub e.Start = d at hd0 hd1
  have hs : d.tdiv Second = d / 10 ^ 9 := by
    rw [Int.tdiv_eq_ediv hd0 (by decide)]; rfl
  have hm : (d.tmod Second).tdiv Millisecond = ((d % 10 ^ 9 / 10 ^ 6).toNat : Int) := by
    rw [Int.tmod_eq_emod hd0 (by decide), Int.tdiv_eq_ediv (by unfold Second; omega) (by decide)]
    unfold Second Millisecond
    omega
  have hlt : (d % 10 ^ 9 / 10 ^ 6).toNat < 1000 := by omega
  have h1 := atoi_eq_toString b (d / 10 ^ 9) (by omega) (by omega)
  have h2 := atoi_nonneg (b ++ toString (d / 10 ^ 9) ++ ".") (d % 10 ^ 9 / 10 ^ 6).toNat 3
    (by omega) (by omega)
  rw [show ((3 : Int).toNat) = 3 from rfl, pad_three _ hlt] at h2
  simp only [hs, hm, h1, h2, Option.bind_eq_bind, Option.some_bind, bind, Option.bind]

/-- C11 applied to a request that took 1.0425 seconds: the field appends
`1.042`. -/
theorem response_time_ms_witness :
    exampleEvent.Start.UnixNano ≤ exampleEvent.End.UnixNano
    ∧ ∃ f : field, fields "$response_time_ms" = some f
      ∧ f "" exampleEvent = some "1.042" := by
  obtain ⟨f, hf, _, hv⟩ := response_time_ms "" exampleEvent (by decide)
  refine ⟨by decide, f, hf, ?_⟩
  rw [hv]
  decide

/-! ### `hostport` -/

/-- Where `indexOf?` finds a character: the list splits there, with no
occurrence before. -/
theorem indexOf_split (c : Char) : ∀ l : List Char,
    (l.indexOf? c = none ∧ c ∉ l)
      ∨ ∃ pre post, l.indexOf? c = some pre.length ∧ l = pre ++ c :: post ∧ c ∉ pre := by
  intro l
  induction l with
  | nil => left; simp [List.indexOf?]
  | cons x xs ih =>
    by_cases hx : x = c
    · right
      refine ⟨[], xs, ?_, by simp [hx], by simp⟩
      simp [List.indexOf?, List.findIdx?_cons, hx]
    · have hx2 : (x == c) = false := by simpa using hx
      rcases ih with ⟨h1, h2⟩ | ⟨pre, post, h1, h2, h3⟩
      · left
        refine ⟨?_, ?_⟩
        · simp only [List.indexOf?, List.findIdx?_cons, hx2] at h1 ⊢
          simp only [Bool.false_eq_true, if_false, Nat.zero_add, List.findIdx?_succ, h1,
            Option.map_none']
        · simp only [List.mem_cons, not_or]
          exact ⟨fun h => hx h.symm, h2⟩
      · right
        refine ⟨x :: pre, post, ?_, by simp [h2], ?_⟩
        · simp only [List.indexOf?, List.findIdx?_cons, hx2] at h1 ⊢
          simp only [Bool.false_eq_true, if_false, Nat.zero_add, List.findIdx?_succ, h1,
            Option.map_some', List.length_cons]
        · simp only [List.mem_cons, not_or]
          exact ⟨fun h => hx h.symm, h3⟩

/-- The last index of a character that occurs: the list splits there, with no
occurrence behind. -/
theorem lastIndexByte_split (c : Char) (l : List Char) (h : c ∈ l) :
    ∃ pre post, tcp.lastIndexByte l c = (pre.length : Int) ∧ l = pre ++ c :: post ∧ c ∉ post := by
  rcases indexOf_split c l.reverse with ⟨_, h2⟩ | ⟨pre, post, h1, h2, h3⟩
  · exact absurd (List.mem_reverse.mpr h) h2
  · have hl : l = post.reverse ++ c :: pre.reverse := by
      have := congrArg List.reverse h2
      simpa using this
    refine ⟨post.reverse, pre.reverse, ?_, hl, by simpa using h3⟩
    unfold tcp.lastIndexByte
    rw [h1]
    simp only
    rw [hl]
    simp only [List.length_append, List.length_cons, List.length_reverse]
    push_cast
    omega

/-- C12: for every string `s` that contains a `:`, `hostport(s)` returns a
host and a port with `host + ":" + port = s` and no `:` in the port; and
`hostport("")` returns two empty strings. -/
theorem hostport_split (s : String) (h : ':' ∈ s.toList) :
    (∃ host port, hostport s = some (host, port)
      ∧ host ++ ":" ++ port = s ∧ ':' ∉ port.toList)
    ∧ hostport "" = some ("", "") := by
  refine ⟨?_, by decide⟩
  obtain ⟨pre, post, h1, h2, h3⟩ := lastIndexByte_split ':' s.toList h
  have hne : s ≠ "" := by
    intro e
    rw [e] at h
    simp at h
  refine ⟨String.mk pre, String.mk post, ?_, ?_, by simpa using h3⟩
  · unfold hostport
    simp only [hne, if_false, h1]
    have : ¬ ((pre.length : Int) < 0) := by omega
    simp only [this, if_false]
    have e1 : ((pre.length : Int)).toNat = pre.length := by omega
    have e2 : ((pre.length : Int) + 1).toNat = pre.length + 1 := by omega
    rw [e1, e2, h2]
    simp
  · apply String.ext
    simp only [String.data_append]
    simpa using h2.symm

/-- C12 applied to an upstream address. -/
theorem hostport_split_witness :
    ':' ∈ "10.0.0.2:8080".toList
    ∧ ((∃ host port, hostport "10.0.0.2:8080" = some (host, port)
        ∧ host ++ ":" ++ port = "10.0.0.2:8080" ∧ ':' ∉ port.toList)
      ∧ hostport "" = some ("", "")) :=
  ⟨by decide, hostport_split "10.0.0.2:8080" (by decide)⟩

/-! ### `New` -/

/-- When no field item is unknown, every item yields a field. -/
theorem filterMap_fieldOf_length (fs : String → Option field) :
    ∀ its : List (itemType × String), firstUnknown fs its = none →
      (its.filterMap (fieldOf fs)).length = its.length := by
  intro its
  induction its with
  | nil => intro _; rfl
  | cons it rest ih =>
    intro h
    simp only [firstUnknown] at h
    split at h
    · simp at h
    · rename_i hc
      rcases it with ⟨typ, val⟩
      cases typ with
      | itemText => simp [List.filterMap_cons, fieldOf, ih h]
      | itemHeader => simp [List.filterMap_cons, fieldOf, ih h]
      | itemField =>
        rcases hf : fs val with _ | f
        · exact absurd ⟨rfl, by simp [hf]⟩ hc
        · simp [List.filterMap_cons, fieldOf, hf, ih h]

/-- What `parse` returns: an invalid-field error with a nil pattern, or no
error and a pattern with one field per item, which for a non-empty format
is at least one field. -/
theorem parse_cases (format : String) (fs : String → Option field) :
    (∃ val, parse format fs = some ([], some (GoError.invalidField val)))
    ∨ ∃ p, parse format fs = some (p, none) ∧ (format ≠ "" → 1 ≤ p.length)
        ∧ (format = "" → p = []) := by
  have hp := parseLoop_eq fs format.length format.toList [] (Nat.le_of_eq rfl)
  rcases hu : firstUnknown fs (items format.length format.toList) with _ | val
  · right
    rw [hu] at hp
    refine ⟨_, hp, ?_, ?_⟩
    · intro hne
      rw [List.nil_append, filterMap_fieldOf_length fs _ hu]
      have hl : format.toList ≠ [] := by
        intro h
        apply hne
        apply String.ext
        simpa using h
      rcases hc : format.toList with _ | ⟨r, rest⟩
      · exact absurd hc hl
      · have hlen : format.length = rest.length + 1 := by
          have e : format.toList.length = rest.length + 1 := by rw [hc]; rfl
          exact e
        rw [hlen]
        simp [items]
    · intro he
      subst he
      rfl
  · left
    rw [hu] at hp
    exact ⟨val, hp⟩

/-- C13: `New` always returns. It returns the error `empty log format` exactly
if the format is the empty string; for a non-empty format it returns either
no logger and the invalid-field error of `parse`, or no error and a logger
whose pattern has at least one field. -/
theorem New_empty_format (w : Option Writer) (format : String) :
    ∃ l err, New w format = some (l, err)
      ∧ (err = some GoError.emptyLogFormat ↔ format = "")
      ∧ (format ≠ "" →
          (∃ val, parse format fields = some ([], some (GoError.invalidField val))
            ∧ l = none ∧ err = some (GoError.invalidField val))
          ∨ (∃ lg, l = some lg ∧ err = none ∧ 1 ≤ lg.p.length
              ∧ parse format fields = some (lg.p, none))) := by
  rcases parse_cases format fields with ⟨val, hv⟩ | ⟨p, hp, h1, h2⟩
  · have hne : format ≠ "" := by
      intro he
      subst he
      have : parse "" fields = some ([], none) := rfl
      rw [this] at hv
      simp at hv
    refine ⟨none, some (GoError.invalidField val), by simp [New, hv], by simp [hne], ?_⟩
    intro _
    exact Or.inl ⟨val, hv, rfl, rfl⟩
  · by_cases he : format = ""
    · have hp0 : p = [] := h2 he
      subst hp0
      refine ⟨none, some GoError.emptyLogFormat, by simp [New, hp], by simp [he], ?_⟩
      intro hne
      exact absurd he hne
    · have hl := h1 he
      have hl0 : ¬ p.length = 0 := by omega
      refine ⟨some { p := p, w := match w with | none => Writer.Stdout | some x => x }, none,
        by simp [New, hp, hl0], by simp [he], ?_⟩
      intro _
      exact Or.inr ⟨_, rfl, rfl, hl, hp⟩

end logger

/-! ## Theorems: the ClientHello sniffer -/

namespace tcp

/-! ### The guarded reads -/

theorem toNat_ofNat_lt (n : Nat) (h : n < 256) : (UInt8.ofNat n).toNat = n := by
  simp [UInt8.toNat, UInt8.ofNat, Fin.ofNat, Nat.mod_eq_of_lt h]

/-- The guarded slice never reads out of bounds: it gives the two slices when
there are enough bytes and fails the check otherwise. -/
theorem takeN_eq (n : Nat) (bs : List UInt8) :
    takeN n bs = if n ≤ bs.length then .ok (bs.take n, bs.drop n) else .short := by
  unfold takeN rawSplit
  by_cases h : n ≤ bs.length
  · have h2 : ¬ bs.length < n := by omega
    simp [h, h2]
  · have h2 : bs.length < n := by omega
    simp [h, h2]

/-- Taking as many bytes as the first part of a buffer has gives that part. -/
theorem takeN_append (a b : List UInt8) : takeN a.length (a ++ b) = .ok (a, b) := by
  simp [takeN_eq]

theorem block8_nil : block8 [] = .short := by
  simp [block8, takeN_eq]

theorem block8_cons (n : UInt8) (rest : List UInt8) :
    block8 (n :: rest) = takeN n.toNat rest := by
  simp [block8, takeN_eq, byteAt]

theorem block16_nil : block16 [] = .short := by
  simp [block16, takeN_eq]

theorem block16_one (a : UInt8) : block16 [a] = .short := by
  simp [block16, takeN_eq]

theorem block16_cons (a b : UInt8) (rest : List UInt8) :
    block16 (a :: b :: rest) = takeN (a.toNat * 256 + b.toNat) rest := by
  simp [block16, takeN_eq, byteAt]

/-- A field with a 1-byte length in front is read back. -/
theorem block8_append (a b : List UInt8) (h : a.length < 256) :
    block8 (UInt8.ofNat a.length :: (a ++ b)) = .ok (a, b) := by
  rw [block8_cons, toNat_ofNat_lt _ h, takeN_append]

/-- The two bytes of `be16` decode to the number. -/
theorem be16_value (n : Nat) (h : n < 65536) :
    (UInt8.ofNat (n / 256)).toNat * 256 + (UInt8.ofNat (n % 256)).toNat = n := by
  rw [toNat_ofNat_lt _ (by omega), toNat_ofNat_lt _ (by omega)]
  omega

/-- A field with a 2-byte length in front is read back. -/
theorem block16_append (a b : List UInt8) (h : a.length < 65536) :
    block16 (be16 a.length ++ (a ++ b)) = .ok (a, b) := by
  simp only [be16, List.cons_append, List.nil_append, block16_cons, be16_value _ h, takeN_append]

/-- A type other than 0 has a non-zero byte. -/
theorem be16_type_ne (t : Nat) (h0 : t ≠ 0) (h : t < 65536) :
    ¬ (UInt8.ofNat (t / 256) = 0 ∧ UInt8.ofNat (t % 256) = 0) := by
  rintro ⟨h1, h2⟩
  have e1 := congrArg UInt8.toNat h1
  have e2 := congrArg UInt8.toNat h2
  rw [toNat_ofNat_lt _ (by omega)] at e1 e2
  have z : (0 : UInt8).toNat = 0 := rfl
  rw [z] at e1 e2
  omega

/-! ### One step of each loop and of the two headers -/

theorem scanNames_one (fuel : Nat) (a : UInt8) :
    scanNames (fuel + 1) [a] = .malformed := by
  simp [scanNames, takeN_eq]

theorem scanNames_two (fuel : Nat) (a b : UInt8) :
    scanNames (fuel + 1) [a, b] = .malformed := by
  simp [scanNames, takeN_eq]

theorem scanNames_step (fuel : Nat) (t l1 l2 : UInt8) (rest : List UInt8) :
    scanNames (fuel + 1) (t :: l1 :: l2 :: rest)
      = match takeN (l1.toNat * 256 + l2.toNat) rest with
        | .short => .malformed
        | .oob => .panic
        | .ok (name, rest1) => if t = 0 then .found name else scanNames fuel rest1 := by
  simp [scanNames, takeN_eq, byteAt]

theorem scanExts_one (fuel : Nat) (got : Option (List UInt8)) (a : UInt8) :
    scanExts (fuel + 1) got [a] = .malformed := by
  simp [scanExts, takeN_eq]

theorem scanExts_two (fuel : Nat) (got : Option (List UInt8)) (a b : UInt8) :
    scanExts (fuel + 1) got [a, b] = .malformed := by
  simp [scanExts, takeN_eq]

theorem scanExts_three (fuel : Nat) (got : Option (List UInt8)) (a b c : UInt8) :
    scanExts (fuel + 1) got [a, b, c] = .malformed := by
  simp [scanExts, takeN_eq]

theorem scanExts_step (fuel : Nat) (got : Option (List UInt8)) (t1 t2 l1 l2 : UInt8)
    (rest : List UInt8) :
    scanExts (fuel + 1) got (t1 :: t2 :: l1 :: l2 :: rest)
      = match takeN (l1.toNat * 256 + l2.toNat) rest with
        | .short => .malformed
        | .oob => .panic
        | .ok (payload, rest1) =>
          if t1 = 0 ∧ t2 = 0 ∧ got = none then
            match serverNameExt payload with
            | .found name => scanExts fuel (some name) rest1
            | .absent => scanExts fuel none rest1
            | r => r
          else scanExts fuel got rest1 := by
  simp [scanExts, takeN_eq, byteAt]

theorem parseHandshake_short (body : List UInt8) (h : body.length < 4) :
    parseHandshake body = .malformed := by
  have h2 : ¬ 4 ≤ body.length := by omega
  simp [parseHandshake, takeN_eq, h2]

theorem parseHandshake_step (ht h1 h2 h3 : UInt8) (rest : List UInt8) :
    parseHandshake (ht :: h1 :: h2 :: h3 :: rest)
      = if ht = 1 then
          match takeN (h1.toNat * 65536 + h2.toNat * 256 + h3.toNat) rest with
          | .short => .malformed
          | .oob => .panic
          | .ok (hello, _) => parseHello hello
        else .malformed := by
  simp [parseHandshake, takeN_eq, byteAt]

theorem sniff_short (data : List UInt8) (h : data.length < 5) : sniff data = .malformed := by
  have h2 : ¬ 5 ≤ data.length := by omega
  simp [sniff, takeN_eq, h2]

theorem sniff_step (ty v1 v2 l1 l2 : UInt8) (rest : List UInt8) :
    sniff (ty :: v1 :: v2 :: l1 :: l2 :: rest)
      = if ty = 22 then
          match takeN (l1.toNat * 256 + l2.toNat) rest with
          | .short => .malformed
          | .oob => .panic
          | .ok (body, _) => parseHandshake body
        else .malformed := by
  simp [sniff, takeN_eq, byteAt]

/-! ### Reading a well-formed ClientHello -/

/-- The scan of a server-name list returns the first `host_name` entry. -/
theorem scanNames_found (name rest : List UInt8) (hn : name.length < 65536) :
    ∀ (before : List (UInt8 × List UInt8)) (fuel : Nat),
      (∀ x ∈ before, x.1 ≠ 0 ∧ x.2.length < 65536) →
      (encodeNames before ++ encodeName (0, name) ++ rest).length ≤ fuel →
      scanNames fuel (encodeNames before ++ encodeName (0, name) ++ rest) = .found name := by
  intro before
  induction before with
  | nil =>
    intro fuel _ hf
    have e : encodeNames [] ++ encodeName (0, name) ++ rest
        = 0 :: UInt8.ofNat (name.length / 256) :: UInt8.ofNat (name.length % 256)
            :: (name ++ rest) := by
      simp [encodeNames, encodeName, be16]
    rw [e] at hf ⊢
    cases fuel with
    | zero => simp at hf
    | succ f =>
      simp only [scanNames_step, be16_value _ hn, takeN_append, if_true]
  | cons x before ih =>
    intro fuel hb hf
    have hx := hb x (List.mem_cons_self _ _)
    have e : encodeNames (x :: before) ++ encodeName (0, name) ++ rest
        = x.1 :: UInt8.ofNat (x.2.length / 256) :: UInt8.ofNat (x.2.length % 256)
            :: (x.2 ++ (encodeNames before ++ encodeName (0, name) ++ rest)) := by
      simp [encodeNames, encodeName, be16]
    rw [e] at hf ⊢
    cases fuel with
    | zero => simp at hf
    | succ f =>
      simp only [scanNames_step, be16_value _ hx.2, takeN_append, hx.1, if_false]
      apply ih f (fun y hy => hb y (List.mem_cons_of_mem _ hy))
      simp only [List.length_cons, List.length_append] at hf ⊢
      omega

/-- The `server_name` payload of a well-formed ClientHello yields its host
name. -/
theorem serverNameExt_found (h : ClientHello) (hw : h.WellFormed) :
    serverNameExt h.sniPayload = .found h.hostName := by
  obtain ⟨_, _, _, _, _, _, hnb, _, hhn, hnl, _⟩ := hw
  have e : h.sniPayload = be16 h.nameList.length ++ (h.nameList ++ []) := by
    simp [ClientHello.sniPayload]
  rw [e]
  simp only [serverNameExt, block16_append _ _ hnl]
  have := scanNames_found h.hostName (encodeNames h.namesAfter) hhn h.namesBefore
    h.nameList.length hnb (by simp [ClientHello.nameList])
  simpa [ClientHello.nameList] using this

/-- Once a host name is found, the scan runs over the remaining extensions,
whatever their types, and returns that name. -/
theorem scanExts_tail (name : List UInt8) :
    ∀ (after : List (Nat × List UInt8)) (fuel : Nat),
      (∀ x ∈ after, x.1 < 65536 ∧ x.2.length < 65536) →
      (encodeExts after).length ≤ fuel →
      scanExts fuel (some name) (encodeExts after) = .found name := by
  intro after
  induction after with
  | nil =>
    intro fuel _ _
    cases fuel <;> simp [encodeExts, scanExts]
  | cons x after ih =>
    intro fuel hb hf
    have hx := hb x (List.mem_cons_self _ _)
    have e : encodeExts (x :: after)
        = UInt8.ofNat (x.1 / 256) :: UInt8.ofNat (x.1 % 256)
            :: UInt8.ofNat (x.2.length / 256) :: UInt8.ofNat (x.2.length % 256)
            :: (x.2 ++ encodeExts after) := by
      simp [encodeExts, encodeExt, be16]
    rw [e] at hf ⊢
    cases fuel with
    | zero => simp at hf
    | succ f =>
      have hg : ¬ (UInt8.ofNat (x.1 / 256) = 0 ∧ UInt8.ofNat (x.1 % 256) = 0
          ∧ (some name : Option (List UInt8)) = none) := by simp
      simp only [scanExts_step, be16_value _ hx.2, takeN_append, hg, if_false]
      apply ih f (fun y hy => hb y (List.mem_cons_of_mem _ hy))
      simp only [List.length_cons, List.length_append] at hf
      omega

/-- The scan of an extensions block returns the host name of the first
`server_name` extension, when that extension has one and the extensions
behind it are well-framed. -/
theorem scanExts_found (payload name : List UInt8) (after : List (Nat × List UInt8))
    (hp : payload.length < 65536) (hs : serverNameExt payload = .found name)
    (ha : ∀ x ∈ after, x.1 < 65536 ∧ x.2.length < 65536) :
    ∀ (before : List (Nat × List UInt8)) (fuel : Nat),
      (∀ x ∈ before, x.1 ≠ 0 ∧ x.1 < 65536 ∧ x.2.length < 65536) →
      (encodeExts before ++ encodeExt (0, payload) ++ encodeExts after).length ≤ fuel →
      scanExts fuel none (encodeExts before ++ encodeExt (0, payload) ++ encodeExts after)
        = .found name := by
  intro before
  induction before with
  | nil =>
    intro fuel _ hf
    have e : encodeExts [] ++ encodeExt (0, payload) ++ encodeExts after
        = 0 :: 0 :: UInt8.ofNat (payload.length / 256) :: UInt8.ofNat (payload.length % 256)
            :: (payload ++ encodeExts after) := by
      simp [encodeExts, encodeExt, be16]
    rw [e] at hf ⊢
    cases fuel with
    | zero => simp at hf
    | succ f =>
      simp only [scanExts_step, be16_value _ hp, takeN_append, and_self, if_true, hs]
      apply scanExts_tail name after f ha
      simp only [List.length_cons, List.length_append] at hf
      omega
  | cons x before ih =>
    intro fuel hb hf
    have hx := hb x (List.mem_cons_self _ _)
    have e : encodeExts (x :: before) ++ encodeExt (0, payload) ++ encodeExts after
        = UInt8.ofNat (x.1 / 256) :: UInt8.ofNat (x.1 % 256)
            :: UInt8.ofNat (x.2.length / 256) :: UInt8.ofNat (x.2.length % 256)
            :: (x.2 ++ (encodeExts before ++ encodeExt (0, payload) ++ encodeExts after)) := by
      simp [encodeExts, encodeExt, be16]
    rw [e] at hf ⊢
    cases fuel with
    | zero => simp at hf
    | succ f =>
      have hg : ¬ (UInt8.ofNat (x.1 / 256) = 0 ∧ UInt8.ofNat (x.1 % 256) = 0 ∧ True) := by
        intro hh
        exact be16_type_ne _ hx.1 hx.2.1 ⟨hh.1, hh.2.1⟩
      simp only [scanExts_step, be16_value _ hx.2.2, takeN_append, hg, if_false]
      apply ih f (fun y hy => hb y (List.mem_cons_of_mem _ hy))
      simp only [List.length_cons, List.length_append] at hf ⊢
      omega

/-- The sniffer finds the host name of every well-formed ClientHello that
carries one, whatever follows the record in the buffer. -/
theorem sniff_record (h : ClientHello) (hw : h.WellFormed) (trailing : List UInt8) :
    sniff (h.record ++ trailing) = .found h.hostName := by
  have hsn := serverNameExt_found h hw
  obtain ⟨hr, hsid, hcs, hcm, heb, hea, _, _, _, _, hsp, hxb, hbody, hhs⟩ := hw
  have hexts : scanExts h.extBlock.length none h.extBlock = .found h.hostName :=
    scanExts_found h.sniPayload h.hostName h.extsAfter hsp hsn hea
      h.extsBefore h.extBlock.length heb (Nat.le_refl _)
  have hac : afterCompression (be16 h.extBlock.length ++ (h.extBlock ++ []))
      = .found h.hostName := by
    have hne : be16 h.extBlock.length ++ (h.extBlock ++ []) ≠ [] := by simp [be16]
    simp only [afterCompression, hne, if_false, block16_append _ _ hxb, hexts]
  have h1 : afterCipherSuites (UInt8.ofNat h.compression.length
      :: (h.compression ++ (be16 h.extBlock.length ++ (h.extBlock ++ [])))) = .found h.hostName := by
    simp only [afterCipherSuites, block8_append _ _ hcm, hac]
  have h2 : afterSessionId (be16 h.cipherSuites.length ++ (h.cipherSuites
      ++ (UInt8.ofNat h.compression.length
      :: (h.compression ++ (be16 h.extBlock.length ++ (h.extBlock ++ [])))))) = .found h.hostName := by
    simp only [afterSessionId, block16_append _ _ hcs, h1]
  have h3 : afterRandom (UInt8.ofNat h.sessionId.length :: (h.sessionId
      ++ (be16 h.cipherSuites.length ++ (h.cipherSuites
      ++ (UInt8.ofNat h.compression.length
      :: (h.compression ++ (be16 h.extBlock.length ++ (h.extBlock ++ [])))))))) = .found h.hostName := by
    simp only [afterRandom, block8_append _ _ hsid, h2]
  have h4 : parseHello h.body = .found h.hostName := by
    have e : h.body = ([h.clientVersion.1, h.clientVersion.2] ++ h.random)
        ++ (UInt8.ofNat h.sessionId.length :: (h.sessionId
        ++ (be16 h.cipherSuites.length ++ (h.cipherSuites
        ++ (UInt8.ofNat h.compression.length
        :: (h.compression ++ (be16 h.extBlock.length ++ (h.extBlock ++ [])))))))) := by
      simp [ClientHello.body]
    have l34 : ([h.clientVersion.1, h.clientVersion.2] ++ h.random).length = 34 := by
      simp [hr]
    rw [e]
    unfold parseHello
    rw [← l34, takeN_append]
    exact h3
  have h5 : parseHandshake (h.handshake ++ []) = .found h.hostName := by
    have e : h.handshake ++ [] = 1 :: UInt8.ofNat (h.body.length / 65536)
        :: UInt8.ofNat (h.body.length / 256 % 256) :: UInt8.ofNat (h.body.length % 256)
        :: (h.body ++ []) := by
      simp [ClientHello.handshake, be24]
    have v : (UInt8.ofNat (h.body.length / 65536)).toNat * 65536
        + (UInt8.ofNat (h.body.length / 256 % 256)).toNat * 256
        + (UInt8.ofNat (h.body.length % 256)).toNat = h.body.length := by
      rw [toNat_ofNat_lt _ (by omega), toNat_ofNat_lt _ (by omega), toNat_ofNat_lt _ (by omega)]
      omega
    rw [e]
    simp only [parseHandshake_step, if_true, v, takeN_append, h4]
  have e : h.record ++ trailing = 22 :: h.recordVersion.1 :: h.recordVersion.2
      :: UInt8.ofNat (h.handshake.length / 256) :: UInt8.ofNat (h.handshake.length % 256)
      :: (h.handshake ++ trailing) := by
    simp [ClientHello.record, be16]
  rw [e]
  simp only [sniff_step, if_true, be16_value _ hhs, takeN_append]
  simpa using h5

/-- C14: for every well-formed ClientHello record that carries a `server_name`
extension with the host name `example.com` (after any extensions of other
types and any names of other types), followed by any further bytes in the
buffer, the server-name extractor as the spec describes it returns
`("example.com", true)`. -/
theorem readServerName_example_com (h : ClientHello) (hw : h.WellFormed)
    (hn : h.hostName = bytesOf "example.com") (trailing : List UInt8) :
    readServerName (h.record ++ trailing) = ("example.com", true) := by
  have hs := sniff_record h hw trailing
  simp only [readServerName, hs, hn]
  decide

/-- C14 applied to a concrete ClientHello of 85 bytes, alone in the buffer. -/
theorem readServerName_example_com_witness :
    exampleHello.WellFormed ∧ exampleHello.hostName = bytesOf "example.com"
    ∧ exampleHello.record.length = 85
    ∧ readServerName (exampleHello.record ++ []) = ("example.com", true) :=
  ⟨by decide, rfl, by decide,
    readServerName_example_com exampleHello (by decide) rfl []⟩

/-! ### Lengths that run past the end -/

/-- Without a found name the extractor returns `("", false)`. -/
theorem readServerName_not_found (data : List UInt8) (h : ∀ name, sniff data ≠ .found name) :
    readServerName data = ("", false) := by
  unfold readServerName
  cases hs : sniff data with
  | found name => exact absurd hs (h name)
  | absent => rfl
  | malformed => rfl
  | panic => rfl
  | fuel => rfl

/-- A slice longer than what is left cannot be taken from any initial part. -/
theorem takeN_initial_fail {x y : List UInt8} {n : Nat} (hy : y <+: x) (hn : x.length < n) :
    takeN n y = .short := by
  have := hy.length_le
  rw [takeN_eq, if_neg (by omega)]

/-- Taking the first part of a buffer from an initial part of it fails the
check or gives that part, and what is left is an initial part of the rest. -/
theorem takeN_initial {a x y : List UInt8} (hy : y <+: a ++ x) :
    takeN a.length y = .short
      ∨ ∃ y1, takeN a.length y = .ok (a, y1) ∧ y1 <+: x := by
  by_cases hl : a.length ≤ y.length
  · right
    have ha : a <+: y := List.prefix_of_prefix_length_le (List.prefix_append a x) hy hl
    obtain ⟨y1, rfl⟩ := ha
    exact ⟨y1, takeN_append a y1, (List.prefix_append_right_inj a).mp hy⟩
  · left
    rw [takeN_eq, if_neg hl]

/-- The guarded slice gives a value or fails the check. -/
theorem takeN_cases (n : Nat) (y : List UInt8) :
    takeN n y = .short
      ∨ ∃ blk r, takeN n y = .ok (blk, r) ∧ blk <+: y ∧ blk.length = n
          ∧ r.length + n = y.length := by
  rw [takeN_eq]
  by_cases h : n ≤ y.length
  · right
    refine ⟨y.take n, y.drop n, by simp [h], List.take_prefix n y, ?_, ?_⟩
    · simp [List.length_take]; omega
    · simp [List.length_drop]; omega
  · left
    simp [h]

/-- A parser that skips a field with a 1-byte length finds nothing when that
length runs past the end. -/
theorem never_block8_base (f g : List UInt8 → Sniff)
    (hf : ∀ r, f r = match block8 r with
      | .short => .malformed
      | .oob => .panic
      | .ok (_, r1) => g r1)
    (sl : UInt8) (rest : List UInt8) (h : rest.length < sl.toNat) :
    NeverFound f (sl :: rest) := by
  intro y hy name
  rw [hf]
  rcases List.prefix_cons_iff.mp hy with rfl | ⟨t, rfl, ht⟩
  · simp [block8_nil]
  · simp [block8_cons, takeN_initial_fail ht h]

/-- A parser that skips a field with a 1-byte length finds nothing when what
follows the field is hopeless. -/
theorem never_block8_lift (f g : List UInt8 → Sniff)
    (hf : ∀ r, f r = match block8 r with
      | .short => .malformed
      | .oob => .panic
      | .ok (_, r1) => g r1)
    (blk x : List UInt8) (hb : blk.length < 256) (hx : NeverFound g x) :
    NeverFound f (UInt8.ofNat blk.length :: (blk ++ x)) := by
  intro y hy name
  rw [hf]
  rcases List.prefix_cons_iff.mp hy with rfl | ⟨t, rfl, ht⟩
  · simp [block8_nil]
  · rw [block8_cons, toNat_ofNat_lt _ hb]
    rcases takeN_initial ht with h | ⟨y1, h, hy1⟩
    · simp [h]
    · simp only [h]
      exact hx y1 hy1 name

/-- A parser that skips a field with a 2-byte length finds nothing when that
length runs past the end. -/
theorem never_block16_base (f g : List UInt8 → Sniff)
    (hf : ∀ r, f r = match block16 r with
      | .short => .malformed
      | .oob => .panic
      | .ok (_, r1) => g r1)
    (c1 c2 : UInt8) (rest : List UInt8) (h : rest.length < c1.toNat * 256 + c2.toNat) :
    NeverFound f (c1 :: c2 :: rest) := by
  intro y hy name
  rw [hf]
  rcases List.prefix_cons_iff.mp hy with rfl | ⟨t, rfl, ht⟩
  · simp [block16_nil]
  · rcases List.prefix_cons_iff.mp ht with rfl | ⟨t2, rfl, ht2⟩
    · simp [block16_one]
    · simp [block16_cons, takeN_initial_fail ht2 h]

/-- A parser that skips a field with a 2-byte length finds nothing when what
follows the field is hopeless. -/
theorem never_block16_lift (f g : List UInt8 → Sniff)
    (hf : ∀ r, f r = match block16 r with
      | .short => .malformed
      | .oob => .panic
      | .ok (_, r1) => g r1)
    (blk x : List UInt8) (hb : blk.length < 65536) (hx : NeverFound g x) :
    NeverFound f (be16 blk.length ++ (blk ++ x)) := by
  intro y hy name
  rw [hf]
  simp only [be16, List.cons_append, List.nil_append] at hy
  rcases List.prefix_cons_iff.mp hy with rfl | ⟨t, rfl, ht⟩
  · simp [block16_nil]
  · rcases List.prefix_cons_iff.mp ht with rfl | ⟨t2, rfl, ht2⟩
    · simp [block16_one]
    · rw [block16_cons, be16_value _ hb]
      rcases takeN_initial ht2 with h | ⟨y1, h, hy1⟩
      · simp [h]
      · simp only [h]
        exact hx y1 hy1 name

/-- The extensions-block step finds nothing when the block length runs past
the end. -/
theorem never_afterCompression_base (e1 e2 : UInt8) (rest : List UInt8)
    (h : rest.length < e1.toNat * 256 + e2.toNat) :
    NeverFound afterCompression (e1 :: e2 :: rest) := by
  intro y hy name
  unfold afterCompression
  split
  · simp
  · rcases List.prefix_cons_iff.mp hy with rfl | ⟨t, rfl, ht⟩
    · simp [block16_nil]
    · rcases List.prefix_cons_iff.mp ht with rfl | ⟨t2, rfl, ht2⟩
      · simp [block16_one]
      · simp [block16_cons, takeN_initial_fail ht2 h]

/-- The extensions-block step finds nothing when every block that can be cut
from what follows the block length is rejected or without a name. -/
theorem never_afterCompression_lift (e1 e2 : UInt8) (z : List UInt8)
    (hz : ∀ exts, exts <+: z → exts.length = e1.toNat * 256 + e2.toNat →
      ∀ fuel name, scanExts fuel none exts ≠ .found name) :
    NeverFound afterCompression (e1 :: e2 :: z) := by
  intro y hy name
  unfold afterCompression
  split
  · simp
  · rcases List.prefix_cons_iff.mp hy with rfl | ⟨t, rfl, ht⟩
    · simp [block16_nil]
    · rcases List.prefix_cons_iff.mp ht with rfl | ⟨t2, rfl, ht2⟩
      · simp [block16_one]
      · rw [block16_cons]
        rcases takeN_cases (e1.toNat * 256 + e2.toNat) t2 with hb | ⟨exts, r, hb, hp, hl, _⟩
        · simp [hb]
        · simp only [hb]
          exact hz exts (hp.trans ht2) hl _ name

/-- The ClientHello body finds nothing when what follows version and random is
hopeless. -/
theorem never_parseHello_lift (vr x : List UInt8) (hv : vr.length = 34)
    (hx : NeverFound afterRandom x) : NeverFound parseHello (vr ++ x) := by
  intro y hy name
  unfold parseHello
  rw [← hv]
  rcases takeN_initial hy with h | ⟨y1, h, hy1⟩
  · simp [h]
  · simp only [h]
    exact hx y1 hy1 name

/-- An initial part of a buffer that starts with four given bytes is shorter
than four bytes or starts with them. -/
theorem initial_four {a b c d : UInt8} {z y : List UInt8} (hy : y <+: a :: b :: c :: d :: z) :
    y.length < 4 ∨ ∃ y1, y = a :: b :: c :: d :: y1 ∧ y1 <+: z := by
  rcases List.prefix_cons_iff.mp hy with rfl | ⟨t, rfl, hy1⟩
  · left; simp
  rcases List.prefix_cons_iff.mp hy1 with rfl | ⟨t, rfl, hy2⟩
  · left; simp
  rcases List.prefix_cons_iff.mp hy2 with rfl | ⟨t, rfl, hy3⟩
  · left; simp
  rcases List.prefix_cons_iff.mp hy3 with rfl | ⟨t, rfl, hy4⟩
  · left; simp
  · right; exact ⟨t, rfl, hy4⟩

/-- The handshake step finds nothing when the handshake length runs past the
end. -/
theorem never_parseHandshake_base (ht h1 h2 h3 : UInt8) (rest : List UInt8)
    (h : rest.length < h1.toNat * 65536 + h2.toNat * 256 + h3.toNat) :
    NeverFound parseHandshake (ht :: h1 :: h2 :: h3 :: rest) := by
  intro y hy name
  rcases initial_four hy with hs | ⟨y1, rfl, hy1⟩
  · simp [parseHandshake_short y hs]
  · rw [parseHandshake_step, takeN_initial_fail hy1 h]
    split <;> simp

/-- The handshake step finds nothing when the ClientHello body is hopeless. -/
theorem never_parseHandshake_lift (ht h1 h2 h3 : UInt8) (z : List UInt8)
    (hz : NeverFound parseHello z) :
    NeverFound parseHandshake (ht :: h1 :: h2 :: h3 :: z) := by
  intro y hy name
  rcases initial_four hy with hs | ⟨y1, rfl, hy1⟩
  · simp [parseHandshake_short y hs]
  · rw [parseHandshake_step]
    split
    · rcases takeN_cases (h1.toNat * 65536 + h2.toNat * 256 + h3.toNat) y1
        with hb | ⟨hello, r, hb, hp, _, _⟩
      · simp [hb]
      · simp only [hb]
        exact hz hello (hp.trans hy1) name
    · simp

/-- The record step finds nothing when the record body is hopeless. -/
theorem sniff_never (r0 v1 v2 l1 l2 : UInt8) (z : List UInt8)
    (hz : NeverFound parseHandshake z) (name : List UInt8) :
    sniff (r0 :: v1 :: v2 :: l1 :: l2 :: z) ≠ .found name := by
  rw [sniff_step]
  split
  · rcases takeN_cases (l1.toNat * 256 + l2.toNat) z with hb | ⟨body, r, hb, hp, _, _⟩
    · simp [hb]
    · simp only [hb]
      exact hz body hp name
  · simp

/-- A list of nine bytes. -/
theorem nine_bytes (hdr : List UInt8) (h : hdr.length = 9) :
    ∃ r0 v1 v2 l1 l2 ht h1 h2 h3, hdr = [r0, v1, v2, l1, l2, ht, h1, h2, h3] := by
  match hdr, h with
  | [r0, v1, v2, l1, l2, ht, h1, h2, h3], _ => exact ⟨r0, v1, v2, l1, l2, ht, h1, h2, h3, rfl⟩

/-- From a hopeless ClientHello body to the result of the extractor: behind
any record header and handshake header the result is `("", false)`. -/
theorem readServerName_of_never (hdr z : List UInt8) (hh : hdr.length = 9)
    (hz : NeverFound parseHello z) : readServerName (hdr ++ z) = ("", false) := by
  obtain ⟨r0, v1, v2, l1, l2, ht, h1, h2, h3, rfl⟩ := nine_bytes hdr hh
  apply readServerName_not_found
  intro name
  exact sniff_never r0 v1 v2 l1 l2 _ (never_parseHandshake_lift ht h1 h2 h3 z hz) name

/-- From what follows version and random to the result of the extractor. -/
theorem readServerName_behindRandom (hdr vr x : List UInt8) (hh : hdr.length = 9)
    (hv : vr.length = 34) (hx : NeverFound afterRandom x) :
    readServerName (behindRandom hdr vr x) = ("", false) :=
  readServerName_of_never hdr _ hh (never_parseHello_lift vr x hv hx)

/-- From what follows the session id to the result of the extractor. -/
theorem readServerName_behindSessionId (hdr vr sid x : List UInt8) (hh : hdr.length = 9)
    (hv : vr.length = 34) (hs : sid.length < 256) (hx : NeverFound afterSessionId x) :
    readServerName (behindSessionId hdr vr sid x) = ("", false) :=
  readServerName_behindRandom hdr vr _ hh hv
    (never_block8_lift afterRandom afterSessionId (fun _ => rfl) sid x hs hx)

/-- From what follows the cipher suites to the result of the extractor. -/
theorem readServerName_behindCipherSuites (hdr vr sid cs x : List UInt8)
    (hh : hdr.length = 9) (hv : vr.length = 34) (hs : sid.length < 256)
    (hc : cs.length < 65536) (hx : NeverFound afterCipherSuites x) :
    readServerName (behindCipherSuites hdr vr sid cs x) = ("", false) :=
  readServerName_behindSessionId hdr vr sid _ hh hv hs
    (never_block16_lift afterSessionId afterCipherSuites (fun _ => rfl) cs x hc hx)

/-- From what follows the compression methods to the result of the
extractor. -/
theorem readServerName_behindCompression (hdr vr sid cs cm x : List UInt8)
    (hh : hdr.length = 9) (hv : vr.length = 34) (hs : sid.length < 256)
    (hc : cs.length < 65536) (hm : cm.length < 256) (hx : NeverFound afterCompression x) :
    readServerName (behindCompression hdr vr sid cs cm x) = ("", false) :=
  readServerName_behindCipherSuites hdr vr sid cs _ hh hv hs hc
    (never_block8_lift afterCipherSuites afterCompression (fun _ => rfl) cm x hm hx)

/-! ### The two loops on a length that runs past the end -/

/-- A successful guarded slice gives exactly the bytes asked for. -/
theorem takeN_ok_length {n : Nat} {y blk r : List UInt8} (h : takeN n y = .ok (blk, r)) :
    blk.length = n ∧ r.length + n = y.length := by
  rcases takeN_cases n y with hb | ⟨blk1, r1, hb, _, hl, hr⟩
  · rw [hb] at h
    cases h
  · rw [hb] at h
    cases h
    exact ⟨hl, hr⟩

theorem scanExts_nil (fuel : Nat) (got : Option (List UInt8)) :
    scanExts fuel got [] = match got with
      | some name => .found name
      | none => .absent := by
  cases fuel <;> simp [scanExts]

theorem scanExts_zero (got : Option (List UInt8)) (a : UInt8) (l : List UInt8) :
    scanExts 0 got (a :: l) = .fuel := by
  simp [scanExts]

theorem scanNames_zero (a : UInt8) (l : List UInt8) : scanNames 0 (a :: l) = .fuel := by
  simp [scanNames]

theorem scanNames_nil (fuel : Nat) : scanNames fuel [] = .absent := by
  cases fuel <;> simp [scanNames]

/-- The scan of the extensions rejects what is left of a block when that is
shorter than the header of an extension. -/
theorem scanExts_short (fuel : Nat) (got : Option (List UInt8)) (y : List UInt8)
    (hne : y ≠ []) (h : y.length < 4) :
    scanExts fuel got y = .malformed ∨ scanExts fuel got y = .fuel := by
  match y, hne, h with
  | [a], _, _ => cases fuel <;> simp [scanExts_zero, scanExts_one]
  | [a, b], _, _ => cases fuel <;> simp [scanExts_zero, scanExts_two]
  | [a, b, c], _, _ => cases fuel <;> simp [scanExts_zero, scanExts_three]

/-- The scan of a server-name list rejects what is left of the list when that
is shorter than the header of an entry. -/
theorem scanNames_short (fuel : Nat) (y : List UInt8) (hne : y ≠ []) (h : y.length < 3) :
    scanNames fuel y = .malformed ∨ scanNames fuel y = .fuel := by
  match y, hne, h with
  | [a], _, _ => cases fuel <;> simp [scanNames_zero, scanNames_one]
  | [a, b], _, _ => cases fuel <;> simp [scanNames_zero, scanNames_two]

/-- An initial part of a buffer that starts with three given bytes is shorter
than three bytes or starts with them. -/
theorem initial_three {a b c : UInt8} {z y : List UInt8} (hy : y <+: a :: b :: c :: z) :
    y.length < 3 ∨ ∃ y1, y = a :: b :: c :: y1 ∧ y1 <+: z := by
  rcases List.prefix_cons_iff.mp hy with rfl | ⟨t, rfl, hy1⟩
  · left; simp
  rcases List.prefix_cons_iff.mp hy1 with rfl | ⟨t, rfl, hy2⟩
  · left; simp
  rcases List.prefix_cons_iff.mp hy2 with rfl | ⟨t, rfl, hy3⟩
  · left; simp
  · right; exact ⟨t, rfl, hy3⟩

/-- The scan of the extensions rejects every block that reaches into an
extension whose length runs past the end, whatever extensions stand before
it and whether or not a host name has been found in them. -/
theorem rejects_scanExts (t1 t2 x1 x2 : UInt8) (rest : List UInt8)
    (h : rest.length < x1.toNat * 256 + x2.toNat) :
    ∀ (before : List (Nat × List UInt8)), (∀ x ∈ before, x.2.length < 65536) →
      ∀ (fuel : Nat) (got : Option (List UInt8)) (l : List UInt8),
        l <+: encodeExts before ++ t1 :: t2 :: x1 :: x2 :: rest →
        (encodeExts before).length < l.length →
        scanExts fuel got l = .malformed ∨ scanExts fuel got l = .panic
          ∨ scanExts fuel got l = .fuel := by
  intro before
  induction before with
  | nil =>
    intro _ fuel got l hl hlen
    simp only [encodeExts, List.map_nil, List.flatten_nil, List.nil_append,
      List.length_nil] at hl hlen
    rcases initial_four hl with hs | ⟨l1, rfl, hl1⟩
    · have hne : l ≠ [] := by
        intro e
        rw [e] at hlen
        simp at hlen
      rcases scanExts_short fuel got l hne hs with e | e <;> simp [e]
    · cases fuel with
      | zero => simp [scanExts_zero]
      | succ f =>
        rw [scanExts_step, takeN_initial_fail hl1 h]
        simp
  | cons x before ih =>
    intro hb fuel got l hl hlen
    have hx := hb x (List.mem_cons_self _ _)
    have e : encodeExts (x :: before) ++ t1 :: t2 :: x1 :: x2 :: rest
        = UInt8.ofNat (x.1 / 256) :: UInt8.ofNat (x.1 % 256)
            :: UInt8.ofNat (x.2.length / 256) :: UInt8.ofNat (x.2.length % 256)
            :: (x.2 ++ (encodeExts before ++ t1 :: t2 :: x1 :: x2 :: rest)) := by
      simp [encodeExts, encodeExt, be16]
    have elen : (encodeExts (x :: before)).length
        = 4 + x.2.length + (encodeExts before).length := by
      simp [encodeExts, encodeExt, be16]
      omega
    rw [e] at hl
    rw [elen] at hlen
    rcases initial_four hl with hs | ⟨l1, rfl, hl1⟩
    · omega
    · cases fuel with
      | zero => simp [scanExts_zero]
      | succ f =>
        rw [scanExts_step, be16_value _ hx]
        rcases takeN_initial hl1 with hn | ⟨y1, hn, hy1⟩
        · simp [hn]
        · simp only [hn]
          have hlen1 : (encodeExts before).length < y1.length := by
            have := (takeN_ok_length hn).2
            simp only [List.length_cons] at hlen
            omega
          have hrec := fun g =>
            ih (fun y hy => hb y (List.mem_cons_of_mem _ hy)) f g y1 hy1 hlen1
          split
          · rcases hsn : serverNameExt x.2 with name | _ | _ | _ | _
            · exact hrec _
            · exact hrec _
            · simp
            · simp
            · simp
          · exact hrec _

/-- The scan of the extensions, while no host name has been found, finds
nothing at an extension whose length runs past the end. -/
theorem never_scanExts_base (t1 t2 x1 x2 : UInt8) (rest : List UInt8)
    (h : rest.length < x1.toNat * 256 + x2.toNat) (fuel : Nat) :
    NeverFound (scanExts fuel none) (t1 :: t2 :: x1 :: x2 :: rest) := by
  intro y hy name
  rcases initial_four hy with hs | ⟨y1, rfl, hy1⟩
  · by_cases hne : y = []
    · rw [hne, scanExts_nil]
      simp
    · rcases scanExts_short fuel none y hne hs with e | e <;> simp [e]
  · cases fuel with
    | zero => simp [scanExts_zero]
    | succ f =>
      rw [scanExts_step, takeN_initial_fail hy1 h]
      simp

/-- The scan of the extensions, while no host name has been found, finds
nothing when it is hopeless behind an extension that yields no host name. -/
theorem never_scanExts_skip (x : Nat × List UInt8) (z : List UInt8)
    (hx : x.1 < 65536 ∧ x.2.length < 65536
      ∧ (x.1 = 0 → (serverNameExt x.2).isFound = false))
    (hz : ∀ fuel, NeverFound (scanExts fuel none) z) (fuel : Nat) :
    NeverFound (scanExts fuel none) (encodeExt x ++ z) := by
  intro y hy name
  simp only [encodeExt, be16, List.cons_append, List.nil_append, List.append_assoc] at hy
  rcases initial_four hy with hs | ⟨y1, rfl, hy1⟩
  · by_cases hne : y = []
    · rw [hne, scanExts_nil]
      simp
    · rcases scanExts_short fuel none y hne hs with e | e <;> simp [e]
  · cases fuel with
    | zero => simp [scanExts_zero]
    | succ f =>
      rw [scanExts_step, be16_value _ hx.2.1]
      rcases takeN_initial hy1 with hn | ⟨y2, hn, hy2⟩
      · simp [hn]
      · simp only [hn]
        split
        · rename_i hc
          have hx0 : x.1 = 0 := by
            by_contra hne
            exact be16_type_ne _ hne hx.1 ⟨hc.1, hc.2.1⟩
          rcases hsn : serverNameExt x.2 with nm | _ | _ | _ | _
          · have hf := hx.2.2 hx0
            rw [hsn] at hf
            simp [Sniff.isFound] at hf
          · exact hz f y2 hy2 name
          · simp
          · simp
          · simp
        · exact hz f y2 hy2 name

/-- The scan of the extensions, while no host name has been found, finds
nothing when it is hopeless behind a run of extensions that yield no host
name. -/
theorem never_scanExts_before (z : List UInt8)
    (hz : ∀ fuel, NeverFound (scanExts fuel none) z) :
    ∀ before : List (Nat × List UInt8),
      (∀ x ∈ before, x.1 < 65536 ∧ x.2.length < 65536
        ∧ (x.1 = 0 → (serverNameExt x.2).isFound = false)) →
      ∀ fuel, NeverFound (scanExts fuel none) (encodeExts before ++ z) := by
  intro before
  induction before with
  | nil => intro _ fuel; simpa [encodeExts] using hz fuel
  | cons x before ih =>
    intro hb fuel
    have e : encodeExts (x :: before) ++ z = encodeExt x ++ (encodeExts before ++ z) := by
      simp [encodeExts]
    rw [e]
    exact never_scanExts_skip x _ (hb x (List.mem_cons_self _ _))
      (ih (fun y hy => hb y (List.mem_cons_of_mem _ hy))) fuel

/-- The scan of the extensions, while no host name has been found, finds
nothing at a `server_name` extension whose payload is rejected. -/
theorem never_scanExts_sni (x1 x2 : UInt8) (z : List UInt8) (hz : Rejects serverNameExt z)
    (fuel : Nat) : NeverFound (scanExts fuel none) (0 :: 0 :: x1 :: x2 :: z) := by
  intro y hy name
  rcases initial_four hy with hs | ⟨y1, rfl, hy1⟩
  · by_cases hne : y = []
    · rw [hne, scanExts_nil]
      simp
    · rcases scanExts_short fuel none y hne hs with e | e <;> simp [e]
  · cases fuel with
    | zero => simp [scanExts_zero]
    | succ f =>
      rw [scanExts_step]
      rcases takeN_cases (x1.toNat * 256 + x2.toNat) y1 with hb | ⟨payload, r, hb, hp, _, _⟩
      · simp [hb]
      · simp only [hb, and_self, if_true]
        rcases hz payload (hp.trans hy1) with h | h | h <;> simp [h]

/-- The payload of a `server_name` extension is rejected when the list length
runs past the end. -/
theorem rejects_serverNameExt_base (n1 n2 : UInt8) (rest : List UInt8)
    (h : rest.length < n1.toNat * 256 + n2.toNat) :
    Rejects serverNameExt (n1 :: n2 :: rest) := by
  intro y hy
  left
  rcases List.prefix_cons_iff.mp hy with rfl | ⟨t, rfl, hy1⟩
  · simp [serverNameExt, block16_nil]
  rcases List.prefix_cons_iff.mp hy1 with rfl | ⟨t, rfl, hy2⟩
  · simp [serverNameExt, block16_one]
  simp [serverNameExt, block16_cons, takeN_initial_fail hy2 h]

/-- The scan of a server-name list rejects every list that reaches into an
entry whose name length runs past the end, behind entries of types other
than `host_name`. -/
theorem rejects_scanNames (t m1 m2 : UInt8) (rest : List UInt8)
    (h : rest.length < m1.toNat * 256 + m2.toNat) :
    ∀ (before : List (UInt8 × List UInt8)),
      (∀ x ∈ before, x.1 ≠ 0 ∧ x.2.length < 65536) →
      ∀ (fuel : Nat) (l : List UInt8), l <+: encodeNames before ++ t :: m1 :: m2 :: rest →
        (encodeNames before).length < l.length →
        scanNames fuel l = .malformed ∨ scanNames fuel l = .panic
          ∨ scanNames fuel l = .fuel := by
  intro before
  induction before with
  | nil =>
    intro _ fuel l hl hlen
    simp only [encodeNames, List.map_nil, List.flatten_nil, List.nil_append,
      List.length_nil] at hl hlen
    rcases initial_three hl with hs | ⟨l1, rfl, hl1⟩
    · have hne : l ≠ [] := by
        intro e
        rw [e] at hlen
        simp at hlen
      rcases scanNames_short fuel l hne hs with e | e <;> simp [e]
    · cases fuel with
      | zero => simp [scanNames_zero]
      | succ f =>
        rw [scanNames_step, takeN_initial_fail hl1 h]
        simp
  | cons x before ih =>
    intro hb fuel l hl hlen
    have hx := hb x (List.mem_cons_self _ _)
    have e : encodeNames (x :: before) ++ t :: m1 :: m2 :: rest
        = x.1 :: UInt8.ofNat (x.2.length / 256) :: UInt8.ofNat (x.2.length % 256)
            :: (x.2 ++ (encodeNames before ++ t :: m1 :: m2 :: rest)) := by
      simp [encodeNames, encodeName, be16]
    have elen : (encodeNames (x :: before)).length
        = 3 + x.2.length + (encodeNames before).length := by
      simp [encodeNames, encodeName, be16]
      omega
    rw [e] at hl
    rw [elen] at hlen
    rcases initial_three hl with hs | ⟨l1, rfl, hl1⟩
    · omega
    · cases fuel with
      | zero => simp [scanNames_zero]
      | succ f =>
        rw [scanNames_step, be16_value _ hx.2]
        rcases takeN_initial hl1 with hn | ⟨y1, hn, hy1⟩
        · simp [hn]
        · simp only [hn, hx.1, if_false]
          apply ih (fun y hy => hb y (List.mem_cons_of_mem _ hy)) f y1 hy1
          have := (takeN_ok_length hn).2
          simp only [List.length_cons] at hlen
          omega

/-- The payload of a `server_name` extension is rejected when its list
reaches into an entry whose name length runs past the end. -/
theorem rejects_serverNameExt_name (n1 n2 t m1 m2 : UInt8) (rest : List UInt8)
    (before : List (UInt8 × List UInt8))
    (hb : ∀ x ∈ before, x.1 ≠ 0 ∧ x.2.length < 65536)
    (hn : (encodeNames before).length < n1.toNat * 256 + n2.toNat)
    (h : rest.length < m1.toNat * 256 + m2.toNat) :
    Rejects serverNameExt (n1 :: n2 :: (encodeNames before ++ t :: m1 :: m2 :: rest)) := by
  intro y hy
  rcases List.prefix_cons_iff.mp hy with rfl | ⟨y1, rfl, hy1⟩
  · simp [serverNameExt, block16_nil]
  rcases List.prefix_cons_iff.mp hy1 with rfl | ⟨y2, rfl, hy2⟩
  · simp [serverNameExt, block16_one]
  simp only [serverNameExt, block16_cons]
  rcases takeN_cases (n1.toNat * 256 + n2.toNat) y2 with hk | ⟨l, r, hk, hp, hl, _⟩
  · simp [hk]
  · simp only [hk]
    exact rejects_scanNames t m1 m2 rest h before hb _ l (hp.trans hy2) (by omega)

/-- The extensions-block step finds nothing when the block reaches into an
extension whose length runs past the end. -/
theorem never_afterCompression_ext (e1 e2 : UInt8) (before : List (Nat × List UInt8))
    (t1 t2 x1 x2 : UInt8) (rest : List UInt8)
    (hb : ∀ x ∈ before, x.2.length < 65536)
    (hr : (encodeExts before).length < e1.toNat * 256 + e2.toNat)
    (h : rest.length < x1.toNat * 256 + x2.toNat) :
    NeverFound afterCompression
      (e1 :: e2 :: (encodeExts before ++ t1 :: t2 :: x1 :: x2 :: rest)) := by
  apply never_afterCompression_lift
  intro exts hp hl fuel name
  rcases rejects_scanExts t1 t2 x1 x2 rest h before hb fuel none exts hp (by omega)
    with e | e | e <;> simp [e]

/-- The extensions-block step finds nothing when the scan of what follows the
block length is hopeless. -/
theorem never_afterCompression_scan (e1 e2 : UInt8) (z : List UInt8)
    (hz : ∀ fuel, NeverFound (scanExts fuel none) z) :
    NeverFound afterCompression (e1 :: e2 :: z) := by
  apply never_afterCompression_lift
  intro exts hp _ fuel name
  exact hz fuel exts hp name

/-! ### No read out of bounds, and the loops never reach their bound -/

theorem block8_cases (bs : List UInt8) :
    block8 bs = .short ∨ ∃ blk r, block8 bs = .ok (blk, r) := by
  cases bs with
  | nil => exact Or.inl block8_nil
  | cons n rest =>
    rw [block8_cons]
    rcases takeN_cases n.toNat rest with h | ⟨blk, r, h, _⟩
    · exact Or.inl h
    · exact Or.inr ⟨blk, r, h⟩

theorem block16_cases (bs : List UInt8) :
    block16 bs = .short ∨ ∃ blk r, block16 bs = .ok (blk, r) ∧ blk.length ≤ bs.length := by
  match bs with
  | [] => exact Or.inl block16_nil
  | [a] => exact Or.inl (block16_one a)
  | a :: b :: rest =>
    rw [block16_cons]
    rcases takeN_cases (a.toNat * 256 + b.toNat) rest with h | ⟨blk, r, h, _, hl, hr⟩
    · exact Or.inl h
    · refine Or.inr ⟨blk, r, h, ?_⟩
      simp only [List.length_cons]
      omega

theorem scanNames_safe : ∀ (fuel : Nat) (l : List UInt8), l.length ≤ fuel →
    scanNames fuel l ≠ .panic ∧ scanNames fuel l ≠ .fuel := by
  intro fuel
  induction fuel with
  | zero =>
    intro l h
    cases l with
    | nil => simp [scanNames_nil]
    | cons a r => simp at h
  | succ f ih =>
    intro l h
    match l, h with
    | [], _ => simp [scanNames_nil]
    | [_], _ => simp [scanNames_one]
    | [_, _], _ => simp [scanNames_two]
    | t :: l1 :: l2 :: rest, h =>
      rw [scanNames_step]
      rcases takeN_cases (l1.toNat * 256 + l2.toNat) rest with hk | ⟨name, r, hk, _, _, hr⟩
      · simp [hk]
      · simp only [hk]
        split
        · simp
        · apply ih
          simp only [List.length_cons] at h
          omega

theorem serverNameExt_safe (payload : List UInt8) :
    serverNameExt payload ≠ .panic ∧ serverNameExt payload ≠ .fuel := by
  unfold serverNameExt
  rcases block16_cases payload with h | ⟨list, r, h, _⟩
  · simp [h]
  · simp only [h]
    exact scanNames_safe _ _ (Nat.le_refl _)

theorem scanExts_safe : ∀ (fuel : Nat) (got : Option (List UInt8)) (l : List UInt8),
    l.length ≤ fuel → scanExts fuel got l ≠ .panic ∧ scanExts fuel got l ≠ .fuel := by
  intro fuel
  induction fuel with
  | zero =>
    intro got l h
    cases l with
    | nil => cases got <;> simp [scanExts_nil]
    | cons a r => simp at h
  | succ f ih =>
    intro got l h
    match l, h with
    | [], _ => cases got <;> simp [scanExts_nil]
    | [_], _ => simp [scanExts_one]
    | [_, _], _ => simp [scanExts_two]
    | [_, _, _], _ => simp [scanExts_three]
    | t1 :: t2 :: l1 :: l2 :: rest, h =>
      rw [scanExts_step]
      rcases takeN_cases (l1.toNat * 256 + l2.toNat) rest with hk | ⟨payload, r, hk, _, _, hr⟩
      · simp [hk]
      · have hlen : r.length ≤ f := by
          simp only [List.length_cons] at h
          omega
        simp only [hk]
        split
        · have hp := serverNameExt_safe payload
          rcases hsn : serverNameExt payload with nm | _ | _ | _ | _
          · exact ih _ r hlen
          · exact ih _ r hlen
          · simp
          · exact absurd hsn hp.1
          · exact absurd hsn hp.2
        · exact ih _ r hlen

/-- A step that skips a field with a 1-byte length is safe when the next step
is. -/
theorem safe_block8 (f g : List UInt8 → Sniff)
    (hf : ∀ r, f r = match block8 r with
      | .short => .malformed
      | .oob => .panic
      | .ok (_, r1) => g r1)
    (hg : ∀ r, g r ≠ .panic ∧ g r ≠ .fuel) (r : List UInt8) :
    f r ≠ .panic ∧ f r ≠ .fuel := by
  rw [hf]
  rcases block8_cases r with h | ⟨blk, r1, h⟩
  · simp [h]
  · simp only [h]
    exact hg r1

/-- A step that skips a field with a 2-byte length is safe when the next step
is. -/
theorem safe_block16 (f g : List UInt8 → Sniff)
    (hf : ∀ r, f r = match block16 r with
      | .short => .malformed
      | .oob => .panic
      | .ok (_, r1) => g r1)
    (hg : ∀ r, g r ≠ .panic ∧ g r ≠ .fuel) (r : List UInt8) :
    f r ≠ .panic ∧ f r ≠ .fuel := by
  rw [hf]
  rcases block16_cases r with h | ⟨blk, r1, h, _⟩
  · simp [h]
  · simp only [h]
    exact hg r1

theorem afterCompression_safe (r : List UInt8) :
    afterCompression r ≠ .panic ∧ afterCompression r ≠ .fuel := by
  unfold afterCompression
  split
  · simp
  · rcases block16_cases r with h | ⟨exts, r1, h, _⟩
    · simp [h]
    · simp only [h]
      exact scanExts_safe _ _ _ (Nat.le_refl _)

theorem parseHello_safe (hello : List UInt8) :
    parseHello hello ≠ .panic ∧ parseHello hello ≠ .fuel := by
  unfold parseHello
  rcases takeN_cases 34 hello with h | ⟨vr, r, h, _⟩
  · simp [h]
  · simp only [h]
    exact safe_block8 afterRandom afterSessionId (fun _ => rfl)
      (safe_block16 afterSessionId afterCipherSuites (fun _ => rfl)
        (safe_block8 afterCipherSuites afterCompression (fun _ => rfl)
          afterCompression_safe)) r

theorem at_least_four (l : List UInt8) (h : ¬ l.length < 4) :
    ∃ a b c d r, l = a :: b :: c :: d :: r := by
  match l, h with
  | [], h => exact (h (by simp)).elim
  | [_], h => exact (h (by simp)).elim
  | [_, _], h => exact (h (by simp)).elim
  | [_, _, _], h => exact (h (by simp)).elim
  | a :: b :: c :: d :: r, _ => exact ⟨a, b, c, d, r, rfl⟩

theorem at_least_five (l : List UInt8) (h : ¬ l.length < 5) :
    ∃ a b c d e r, l = a :: b :: c :: d :: e :: r := by
  match l, h with
  | [], h => exact (h (by simp)).elim
  | [_], h => exact (h (by simp)).elim
  | [_, _], h => exact (h (by simp)).elim
  | [_, _, _], h => exact (h (by simp)).elim
  | [_, _, _, _], h => exact (h (by simp)).elim
  | a :: b :: c :: d :: e :: r, _ => exact ⟨a, b, c, d, e, r, rfl⟩

theorem parseHandshake_safe (body : List UInt8) :
    parseHandshake body ≠ .panic ∧ parseHandshake body ≠ .fuel := by
  by_cases hs : body.length < 4
  · simp [parseHandshake_short body hs]
  · obtain ⟨ht, h1, h2, h3, rest, rfl⟩ := at_least_four body hs
    rw [parseHandshake_step]
    split
    · rcases takeN_cases (h1.toNat * 65536 + h2.toNat * 256 + h3.toNat) rest
        with h | ⟨hello, r, h, _⟩
      · simp [h]
      · simp only [h]
        exact parseHello_safe hello
    · simp

/-- The extractor returns on every buffer without a read out of bounds: every
slice it takes has passed its bounds check, and the bound of its loops is
never reached. -/
theorem sniff_safe (data : List UInt8) : sniff data ≠ .panic ∧ sniff data ≠ .fuel := by
  by_cases hs : data.length < 5
  · simp [sniff_short data hs]
  · obtain ⟨ty, v1, v2, l1, l2, rest, rfl⟩ := at_least_five data hs
    rw [sniff_step]
    split
    · rcases takeN_cases (l1.toNat * 256 + l2.toNat) rest with h | ⟨body, r, h, _⟩
      · simp [h]
      · simp only [h]
        exact parseHandshake_safe body
    · simp

/-- A buffer that does not start with 0x16 holds no host name. -/
theorem sniff_first_byte (data : List UInt8) (h : data.head? ≠ some 22) :
    sniff data = .malformed := by
  by_cases hs : data.length < 5
  · exact sniff_short data hs
  · obtain ⟨ty, v1, v2, l1, l2, rest, rfl⟩ := at_least_five data hs
    have hty : ty ≠ 22 := by simpa using h
    rw [sniff_step, if_neg hty]

/-! ### The claim on lengths that run past the end -/

/-- C15 as stated fails at the buffer `nameBehindHostName`: the second entry
of its server-name list declares a name of 65535 bytes where one byte is
left, so a declared name length runs past the end of the buffer, but that
entry stands behind the `host_name` entry `example.com` of the same list,
which is the first such name and is returned (spec 4.1 step 6). The
extractor returns `("example.com", true)`. -/
theorem readServerName_behind_host_name :
    nameBehindHostName
      = behindCompression [22, 3, 1, 0, 77, 1, 0, 0, 73] exampleVr [] [19, 1] [0]
          (0 :: 30 :: (encodeExts [(11, [1, 0])]
            ++ 0 :: 0 :: 0 :: 20 :: 0 :: 18
            :: (encodeNames [(0, bytesOf "example.com")] ++ 1 :: 255 :: 255 :: [9])))
    ∧ (encodeNames [(0, bytesOf "example.com")]).length
        < (0 : UInt8).toNat * 256 + (18 : UInt8).toNat
    ∧ [9].length < (255 : UInt8).toNat * 256 + (255 : UInt8).toNat
    ∧ readServerName nameBehindHostName = ("example.com", true) :=
  ⟨rfl, by decide, by decide, by decide⟩

/-- The server-name list of a `server_name` extension that stands behind the
one with the host name is not read: `laterServerNameHello` is well-formed
in the sense of C14, its record is `laterServerName`, and the result is
`("example.com", true)` although the second list declares 65535 bytes. -/
theorem readServerName_later_server_name :
    laterServerNameHello.WellFormed
    ∧ laterServerNameHello.record = laterServerName
    ∧ readServerName laterServerName = ("example.com", true) :=
  ⟨by decide, by decide, by decide⟩

/-- C15, amended, for the server-name extractor as the spec describes it. On
every buffer the extractor returns without a read or slice out of bounds
(every slice has passed its bounds check, and the bound of its loops is
never reached), and it returns `("", false)` whenever the first byte is not
0x16 and whenever one of these declared lengths is larger than the number
of bytes left behind it: the record length, the handshake length, the
lengths of session id, cipher suites and compression methods, the length of
the extensions block, the length of an extension behind any extensions
(inside the declared block, or when none of the extensions before it
yields a host name), and, as long as no extension before has yielded a host
name, the length of the server-name list and the length of a name (inside
the declared list, behind names of other types than `host_name`). -/
theorem readServerName_rejects :
    (∀ data, sniff data ≠ .panic ∧ sniff data ≠ .fuel)
    ∧ (∀ data, data.head? ≠ some 22 → readServerName data = ("", false))
    ∧ (∀ (v1 v2 l1 l2 : UInt8) (rest : List UInt8),
        rest.length < l1.toNat * 256 + l2.toNat →
        readServerName (22 :: v1 :: v2 :: l1 :: l2 :: rest) = ("", false))
    ∧ (∀ (rh : List UInt8) (ht h1 h2 h3 : UInt8) (rest : List UInt8), rh.length = 5 →
        rest.length < h1.toNat * 65536 + h2.toNat * 256 + h3.toNat →
        readServerName (rh ++ ht :: h1 :: h2 :: h3 :: rest) = ("", false))
    ∧ (∀ (hdr vr : List UInt8) (sl : UInt8) (rest : List UInt8),
        hdr.length = 9 → vr.length = 34 →
        rest.length < sl.toNat →
        readServerName (behindRandom hdr vr (sl :: rest)) = ("", false))
    ∧ (∀ (hdr vr sid : List UInt8) (c1 c2 : UInt8) (rest : List UInt8),
        hdr.length = 9 → vr.length = 34 → sid.length < 256 →
        rest.length < c1.toNat * 256 + c2.toNat →
        readServerName (behindSessionId hdr vr sid (c1 :: c2 :: rest)) = ("", false))
    ∧ (∀ (hdr vr sid cs : List UInt8) (ml : UInt8) (rest : List UInt8),
        hdr.length = 9 → vr.length = 34 → sid.length < 256 → cs.length < 65536 →
        rest.length < ml.toNat →
        readServerName (behindCipherSuites hdr vr sid cs (ml :: rest)) = ("", false))
    ∧ (∀ (hdr vr sid cs cm : List UInt8) (e1 e2 : UInt8) (rest : List UInt8),
        hdr.length = 9 → vr.length = 34 → sid.length < 256 → cs.length < 65536 →
        cm.length < 256 →
        rest.length < e1.toNat * 256 + e2.toNat →
        readServerName (behindCompression hdr vr sid cs cm (e1 :: e2 :: rest)) = ("", false))
    ∧ (∀ (hdr vr sid cs cm : List UInt8) (e1 e2 : UInt8) (before : List (Nat × List UInt8))
        (t1 t2 x1 x2 : UInt8) (rest : List UInt8),
        hdr.length = 9 → vr.length = 34 → sid.length < 256 → cs.length < 65536 →
        cm.length < 256 →
        (∀ x ∈ before, x.1 < 65536 ∧ x.2.length < 65536) →
        ((encodeExts before).length < e1.toNat * 256 + e2.toNat
          ∨ ∀ x ∈ before, x.1 = 0 → (serverNameExt x.2).isFound = false) →
        rest.length < x1.toNat * 256 + x2.toNat →
        readServerName (behindCompression hdr vr sid cs cm
          (e1 :: e2 :: (encodeExts before ++ t1 :: t2 :: x1 :: x2 :: rest))) = ("", false))
    ∧ (∀ (hdr vr sid cs cm : List UInt8) (e1 e2 : UInt8) (before : List (Nat × List UInt8))
        (x1 x2 n1 n2 : UInt8) (rest : List UInt8),
        hdr.length = 9 → vr.length = 34 → sid.length < 256 → cs.length < 65536 →
        cm.length < 256 →
        (∀ x ∈ before, x.1 < 65536 ∧ x.2.length < 65536
          ∧ (x.1 = 0 → (serverNameExt x.2).isFound = false)) →
        rest.length < n1.toNat * 256 + n2.toNat →
        readServerName (behindCompression hdr vr sid cs cm
          (e1 :: e2 :: (encodeExts before ++ 0 :: 0 :: x1 :: x2 :: n1 :: n2 :: rest)))
          = ("", false))
    ∧ (∀ (hdr vr sid cs cm : List UInt8) (e1 e2 : UInt8) (before : List (Nat × List UInt8))
        (x1 x2 n1 n2 : UInt8) (names : List (UInt8 × List UInt8)) (t m1 m2 : UInt8)
        (rest : List UInt8),
        hdr.length = 9 → vr.length = 34 → sid.length < 256 → cs.length < 65536 →
        cm.length < 256 →
        (∀ x ∈ before, x.1 < 65536 ∧ x.2.length < 65536
          ∧ (x.1 = 0 → (serverNameExt x.2).isFound = false)) →
        (∀ x ∈ names, x.1 ≠ 0 ∧ x.2.length < 65536) →
        (encodeNames names).length < n1.toNat * 256 + n2.toNat →
        rest.length < m1.toNat * 256 + m2.toNat →
        readServerName (behindCompression hdr vr sid cs cm
          (e1 :: e2 :: (encodeExts before ++ 0 :: 0 :: x1 :: x2 :: n1 :: n2
            :: (encodeNames names ++ t :: m1 :: m2 :: rest)))) = ("", false)) := by
  refine ⟨sniff_safe, ?_, ?_, ?_, ?_, ?_, ?_, ?_, ?_, ?_, ?_⟩
  · intro data h
    apply readServerName_not_found
    intro name
    simp [sniff_first_byte data h]
  · intro v1 v2 l1 l2 rest h
    apply readServerName_not_found
    intro name
    simp [sniff_step, takeN_initial_fail (List.prefix_refl rest) h]
  · intro rh ht h1 h2 h3 rest hr h
    match rh, hr with
    | [r0, v1, v2, l1, l2], _ =>
      apply readServerName_not_found
      intro name
      exact sniff_never r0 v1 v2 l1 l2 _ (never_parseHandshake_base ht h1 h2 h3 rest h) name
  · intro hdr vr sl rest hh hv h
    exact readServerName_behindRandom hdr vr _ hh hv
      (never_block8_base afterRandom afterSessionId (fun _ => rfl) sl rest h)
  · intro hdr vr sid c1 c2 rest hh hv hs h
    exact readServerName_behindSessionId hdr vr sid _ hh hv hs
      (never_block16_base afterSessionId afterCipherSuites (fun _ => rfl) c1 c2 rest h)
  · intro hdr vr sid cs ml rest hh hv hs hc h
    exact readServerName_behindCipherSuites hdr vr sid cs _ hh hv hs hc
      (never_block8_base afterCipherSuites afterCompression (fun _ => rfl) ml rest h)
  · intro hdr vr sid cs cm e1 e2 rest hh hv hs hc hm h
    exact readServerName_behindCompression hdr vr sid cs cm _ hh hv hs hc hm
      (never_afterCompression_base e1 e2 rest h)
  · intro hdr vr sid cs cm e1 e2 before t1 t2 x1 x2 rest hh hv hs hc hm hb hr h
    apply readServerName_behindCompression hdr vr sid cs cm _ hh hv hs hc hm
    rcases hr with hr | hr
    · exact never_afterCompression_ext e1 e2 before t1 t2 x1 x2 rest
        (fun x hx => (hb x hx).2) hr h
    · exact never_afterCompression_scan e1 e2 _
        (never_scanExts_before _ (never_scanExts_base t1 t2 x1 x2 rest h) before
          (fun x hx => ⟨(hb x hx).1, (hb x hx).2, hr x hx⟩))
  · intro hdr vr sid cs cm e1 e2 before x1 x2 n1 n2 rest hh hv hs hc hm hb h
    exact readServerName_behindCompression hdr vr sid cs cm _ hh hv hs hc hm
      (never_afterCompression_scan e1 e2 _
        (never_scanExts_before _
          (never_scanExts_sni x1 x2 _ (rejects_serverNameExt_base n1 n2 rest h)) before hb))
  · intro hdr vr sid cs cm e1 e2 before x1 x2 n1 n2 names t m1 m2 rest hh hv hs hc hm hb hnb
      hn h
    exact readServerName_behindCompression hdr vr sid cs cm _ hh hv hs hc hm
      (never_afterCompression_scan e1 e2 _
        (never_scanExts_before _
          (never_scanExts_sni x1 x2 _
            (rejects_serverNameExt_name n1 n2 t m1 m2 rest names hnb hn h)) before hb))

/-- C15 (amended) applied to five buffers: one that does not start with 0x16;
one whose record length of 80 runs past the 4 bytes left; the record of
`exampleHello` with the length of the extension behind the `server_name`
extension changed to 65535; a record with an extension of 65535 bytes
behind a `server_name` extension with an empty list; and the record of
`exampleHello` cut off inside the host name. -/
theorem readServerName_rejects_witness :
    readServerName [23, 3, 1, 0, 2, 1, 0] = ("", false)
    ∧ readServerName [22, 3, 1, 0, 80, 1, 0, 0, 76] = ("", false)
    ∧ readServerName laterOverrun = ("", false)
    ∧ readServerName overrunBehindEmptyList = ("", false)
    ∧ readServerName cutInName = ("", false) :=
  ⟨readServerName_rejects.2.1 _ (by decide),
   readServerName_rejects.2.2.1 3 1 0 80 [1, 0, 0, 76] (by decide),
   readServerName_rejects.2.2.2.2.2.2.2.2.1 exampleHdr exampleVr [] [19, 1] [0] 0 33
     [(11, [1, 0]), (0, exampleHello.sniPayload)] 0 43 255 255 [2, 3, 4]
     (by decide) (by decide) (by decide) (by decide) (by decide) (by decide)
     (Or.inl (by decide)) (by decide),
   readServerName_rejects.2.2.2.2.2.2.2.2.1 [22, 3, 1, 0, 58, 1, 0, 0, 54] exampleVr []
     [19, 1] [0] 0 11 [(0, [0, 0])] 0 43 255 255 [2]
     (by decide) (by decide) (by decide) (by decide) (by decide) (by decide)
     (Or.inr (by decide)) (by decide),
   readServerName_rejects.2.2.2.2.2.2.2.2.2.2 exampleHdr exampleVr [] [19, 1] [0] 0 33
     [(11, [1, 0])] 0 16 0 14 [] 0 0 11 (bytesOf "exam")
     (by decide) (by decide) (by decide) (by decide) (by decide) (by decide) (by decide)
     (by decide) (by decide)⟩

end tcp
